import Mathlib

/-!
Verification development for the sticky-pi image container codec
(`sticky_pi_ml/image.py`): a shallow embedding of the filename-identity
parser, the metadata literal codec, the SVG path-geometry extractor, the
container writer and the raster flattener, together with theorems about
the behaviour the specification describes.

Strings from the Python side are modelled as lists of characters
(`Str`), machine reals as exact rationals (`ℚ`), and Python exceptions
as an explicit error type (`PyErr`).  All definitions are executable.
-/

/-- A Python string, modelled as its character list. -/
abbrev Str := List Char

/-- Single-quote character (ASCII 39). -/
def squote : Char := Char.ofNat 39

/-- Double-quote character (ASCII 34). -/
def dquote : Char := Char.ofNat 34

/-- Opening curly brace character (ASCII 123). -/
def obrace : Char := Char.ofNat 123

/-- Closing curly brace character (ASCII 125). -/
def cbrace : Char := Char.ofNat 125

/-- Backslash character (ASCII 92). -/
def bslash : Char := Char.ofNat 92

/-- Python exceptions raised by the code under `src/` that our claims
distinguish.  `exc` models a plain `Exception(msg)`; the remaining
constructors model the built-in exception classes. -/
inductive PyErr where
  | exc (msg : String)
  | keyError (key : String)
  | valueError
  | typeError
  | fileNotFound (path : String)
  | indexError
  /-- `Exception('SVG path interrupted %s' % str(path))`; the dynamic
  `str(path)` payload is not carried in the model. -/
  | svgInterrupted
deriving DecidableEq, Repr

instance {ε α : Type} [DecidableEq ε] [DecidableEq α] : DecidableEq (Except ε α) := by
  intro a b
  cases a <;> cases b
  case error.error e f => exact decidable_of_iff (e = f) (by simp)
  case ok.ok x y => exact decidable_of_iff (x = y) (by simp)
  all_goals exact isFalse (by simp)

/-- `s.split(sep)` for a one-character separator, Python semantics:
splitting the empty string yields `[""]`, separators at the ends yield
empty fields. -/
def splitChar (sep : Char) : Str → List Str
  | [] => [[]]
  | c :: rest =>
    let r := splitChar sep rest
    if c = sep then [] :: r
    else match r with
      | [] => [[c]]
      | f :: fs => (c :: f) :: fs

example : splitChar '.' "a.b.c".data = ["a".data, "b".data, "c".data] := by decide
example : splitChar '.' "bad".data = ["bad".data] := by decide
example : splitChar '.' "".data = [[]] := by decide
example : splitChar ',' "x,,y".data = ["x".data, [], "y".data] := by decide

/-! ### Python `int(s, base)` -/

/-- ASCII whitespace stripped by Python's `int(str)`. -/
def pyWs (c : Char) : Bool :=
  c = ' ' || c = '\t' || c = '\n' || c = '\r' || c = Char.ofNat 11 || c = Char.ofNat 12

/-- `str.strip()` restricted to ASCII whitespace. -/
def stripWs (s : Str) : Str :=
  ((s.dropWhile pyWs).reverse.dropWhile pyWs).reverse

/-- Decimal digit value. -/
def decVal (c : Char) : Option ℕ :=
  if '0' ≤ c ∧ c ≤ '9' then some (c.toNat - 48) else Option.none

/-- Hexadecimal digit value (both cases). -/
def hexVal (c : Char) : Option ℕ :=
  if '0' ≤ c ∧ c ≤ '9' then some (c.toNat - 48)
  else if 'a' ≤ c ∧ c ≤ 'f' then some (c.toNat - 87)
  else if 'A' ≤ c ∧ c ≤ 'F' then some (c.toNat - 55)
  else Option.none

/-- Digit run after the first digit: underscores are accepted only
between two digits (CPython numeric-literal rule used by `int`). -/
def digitsTail (dv : Char → Option ℕ) (base : ℕ) : Str → ℕ → Option ℕ
  | [], acc => some acc
  | c :: rest, acc =>
    if c = '_' then
      match rest with
      | c2 :: r2 =>
        match dv c2 with
        | some d => digitsTail dv base r2 (acc * base + d)
        | Option.none => Option.none
      | [] => Option.none
    else
      match dv c with
      | some d => digitsTail dv base rest (acc * base + d)
      | Option.none => Option.none

/-- Nonempty digit run, underscores only between digits. -/
def digitRun (dv : Char → Option ℕ) (base : ℕ) (s : Str) : Option ℕ :=
  match s with
  | c :: rest =>
    match dv c with
    | some d => digitsTail dv base rest d
    | Option.none => Option.none
  | [] => Option.none

/-- Python `int(s, 16)`: strips whitespace, accepts an optional sign, an
optional `0x`/`0X` prefix (optionally followed by one underscore), and
hex digits with underscores between digits. -/
def pyIntBase16 (s : Str) : Option ℤ :=
  let t := stripWs s
  let signed : Int × Str :=
    match t with
    | '+' :: r => (1, r)
    | '-' :: r => (-1, r)
    | _ => (1, t)
  let body : Option ℕ :=
    match signed.2 with
    | '0' :: 'x' :: r =>
      (match r with
       | '_' :: r2 => digitRun hexVal 16 r2
       | _ => digitRun hexVal 16 r)
    | '0' :: 'X' :: r =>
      (match r with
       | '_' :: r2 => digitRun hexVal 16 r2
       | _ => digitRun hexVal 16 r)
    | u => digitRun hexVal 16 u
  body.map (fun n => signed.1 * n)

/-- Python `int(s)` (base 10, no prefix). -/
def pyIntDec (s : Str) : Option ℤ :=
  let t := stripWs s
  let signed : Int × Str :=
    match t with
    | c :: r => if c = '+' then (1, r) else if c = '-' then (-1, r) else (1, c :: r)
    | [] => (1, [])
  (digitRun decVal 10 signed.2).map (fun n => signed.1 * n)

example : pyIntBase16 "5c173ff2".data = some 0x5c173ff2 := by decide
example : pyIntBase16 "0x173ff2".data = some 0x173ff2 := by decide
example : pyIntBase16 "ZZZZZZZZ".data = Option.none := by decide
example : pyIntBase16 " +1_2 ".data = some 18 := by decide
example : pyIntBase16 "1__2".data = Option.none := by decide
example : pyIntDec "1000".data = some 1000 := by decide
example : pyIntDec "12a".data = Option.none := by decide

/-! ### `datetime.strptime(s, '%Y-%m-%d_%H-%M-%S')`

CPython compiles each directive to a regex fragment
(`Lib/_strptime.py`): `%Y ↦ \d\d\d\d`, `%m ↦ 1[0-2]|0[1-9]|[1-9]`,
`%d ↦ 3[01]|[12]\d|0[1-9]|[1-9]`, `%H ↦ 2[0-3]|[0-1]\d|\d`,
`%M ↦ [0-5]\d|\d`, `%S ↦ 6[0-1]|[0-5]\d|\d`, and then validates the
result through the `datetime` constructor, also requiring that the
whole string was consumed.  We model the ordered-alternative regex
semantics with explicit backtracking; because every numeric field here
is followed by a non-digit literal (or end of input plus the
full-consumption check), the model's backtracking into the constructor
checks cannot change the success/failure outcome relative to CPython's
commit-then-validate behaviour. -/

/-- Digit test. -/
def isDig (c : Char) : Bool := decide ('0' ≤ c) && decide (c ≤ '9')

/-- Digit value (unchecked). -/
def dval (c : Char) : ℕ := c.toNat - 48

/-- Character range test. -/
def chBetween (lo hi c : Char) : Bool := decide (lo ≤ c) && decide (c ≤ hi)

/-- A two-character regex alternative such as `2[0-3]`. -/
def alt2 (p1 p2 : Char → Bool) : Str → Option (ℕ × Str)
  | c1 :: c2 :: r => if p1 c1 && p2 c2 then some (dval c1 * 10 + dval c2, r) else Option.none
  | _ => Option.none

/-- A one-character regex alternative such as `\d`. -/
def alt1 (p : Char → Bool) : Str → Option (ℕ × Str)
  | c :: r => if p c then some (dval c, r) else Option.none
  | _ => Option.none

/-- Ordered alternatives with backtracking through the continuation. -/
def tryAlts {α : Type} (alts : List (Str → Option (ℕ × Str))) (s : Str)
    (k : ℕ → Str → Option α) : Option α :=
  match alts with
  | [] => Option.none
  | a :: rest =>
    match a s with
    | Option.none => tryAlts rest s k
    | some (v, r) =>
      match k v r with
      | Option.none => tryAlts rest s k
      | some x => some x

/-- `%m` alternatives. -/
def mAlts : List (Str → Option (ℕ × Str)) :=
  [alt2 (· = '1') (chBetween '0' '2'), alt2 (· = '0') (chBetween '1' '9'),
   alt1 (chBetween '1' '9')]

/-- `%d` alternatives. -/
def dAlts : List (Str → Option (ℕ × Str)) :=
  [alt2 (· = '3') (chBetween '0' '1'), alt2 (chBetween '1' '2') isDig,
   alt2 (· = '0') (chBetween '1' '9'), alt1 (chBetween '1' '9')]

/-- `%H` alternatives. -/
def hAlts : List (Str → Option (ℕ × Str)) :=
  [alt2 (· = '2') (chBetween '0' '3'), alt2 (chBetween '0' '1') isDig, alt1 isDig]

/-- `%M` alternatives. -/
def minAlts : List (Str → Option (ℕ × Str)) :=
  [alt2 (chBetween '0' '5') isDig, alt1 isDig]

/-- `%S` alternatives (61 allowed by the regex, rejected by the constructor). -/
def sAlts : List (Str → Option (ℕ × Str)) :=
  [alt2 (· = '6') (chBetween '0' '1'), alt2 (chBetween '0' '5') isDig, alt1 isDig]

/-- `%Y`: exactly four digits. -/
def match4Dig : Str → Option (ℕ × Str)
  | a :: b :: c :: d :: r =>
    if isDig a && isDig b && isDig c && isDig d then
      some (((dval a * 10 + dval b) * 10 + dval c) * 10 + dval d, r)
    else Option.none
  | _ => Option.none

/-- A literal character in the format string. -/
def litCh (c : Char) : Str → Option Str
  | x :: r => if x = c then some r else Option.none
  | [] => Option.none

/-- A parsed timestamp. -/
structure DT where
  year : ℕ
  month : ℕ
  day : ℕ
  hour : ℕ
  minute : ℕ
  second : ℕ
deriving DecidableEq, Repr

/-- Gregorian leap year. -/
def isLeap (y : ℕ) : Bool := y % 4 = 0 && (y % 100 ≠ 0 || y % 400 = 0)

/-- Days in a month. -/
def daysInMonth (y m : ℕ) : ℕ :=
  if m = 2 then (if isLeap y then 29 else 28)
  else if m = 4 || m = 6 || m = 9 || m = 11 then 30
  else 31

/-- The checks the `datetime.datetime` constructor adds on top of the
regex ranges: year ≥ 1 (MINYEAR), day within the month, second ≤ 59. -/
def dtValid (t : DT) : Bool :=
  1 ≤ t.year && t.day ≤ daysInMonth t.year t.month && t.second ≤ 59

/-- `datetime.datetime.strptime(s, '%Y-%m-%d_%H-%M-%S')`, returning
`none` where CPython raises `ValueError`. -/
def strptimeYmdHMS (s : Str) : Option DT :=
  match match4Dig s with
  | Option.none => Option.none
  | some (y, r0) =>
    match litCh '-' r0 with
    | Option.none => Option.none
    | some r1 =>
      tryAlts mAlts r1 (fun mo r2 =>
        (litCh '-' r2).bind (fun r3 =>
          tryAlts dAlts r3 (fun d r4 =>
            (litCh '_' r4).bind (fun r5 =>
              tryAlts hAlts r5 (fun h r6 =>
                (litCh '-' r6).bind (fun r7 =>
                  tryAlts minAlts r7 (fun mi r8 =>
                    (litCh '-' r8).bind (fun r9 =>
                      tryAlts sAlts r9 (fun sec r10 =>
                        if r10 = [] ∧ dtValid ⟨y, mo, d, h, mi, sec⟩ then
                          some ⟨y, mo, d, h, mi, sec⟩
                        else Option.none)))))))))

example : strptimeYmdHMS "2020-06-20_21-33-24".data = some ⟨2020, 6, 20, 21, 33, 24⟩ := by decide
example : strptimeYmdHMS "2020-6-20_21-33-24".data = some ⟨2020, 6, 20, 21, 33, 24⟩ := by decide
example : strptimeYmdHMS "2020-13-20_21-33-24".data = Option.none := by decide
example : strptimeYmdHMS "2020-02-30_21-33-24".data = Option.none := by decide
example : strptimeYmdHMS "2020-06-20_21-33-61".data = Option.none := by decide
example : strptimeYmdHMS "2020-06-20_21-33-24x".data = Option.none := by decide

/-! ### `Image._device_datetime_info` (image.py lines 147-170) -/

/-- The identity parsed from a filename. -/
structure ImgIdentity where
  device : Str
  datetime : DT
  filename : Str
deriving DecidableEq, Repr

/-- `Image._device_datetime_info`: splits the filename on `.`, requires
three fields, requires the device field to have length 8 and to be
accepted by `int(device, base=16)`, and parses the middle field with
`strptime('%Y-%m-%d_%H-%M-%S')`.  All failures raise a plain
`Exception` with the messages shown. -/
def device_datetime_info (filename : Str) : Except PyErr ImgIdentity :=
  match splitChar '.' filename with
  | [device, dtStr, _ext] =>
    if device.length = 8 ∧ (pyIntBase16 device).isSome then
      match strptimeYmdHMS dtStr with
      | some dt => .ok ⟨device, dt, filename⟩
      | Option.none => .error (.exc "Could not retrieve datetime from filename")
    else .error (.exc "Invalid device name field in file")
  | _ => .error (.exc "Wrong file name, three dot-separated fields expected")

example : device_datetime_info "5c173ff2.2020-06-20_21-33-24.jpg".data =
    .ok ⟨"5c173ff2".data, ⟨2020, 6, 20, 21, 33, 24⟩, "5c173ff2.2020-06-20_21-33-24.jpg".data⟩ := by
  decide

/-- C4 counterexample input: the device field `0x173ff2` is not made of
8 hexadecimal characters, and the timestamp field is not in the fixed
zero-padded `YYYY-MM-DD_HH-MM-SS` shape, yet parsing succeeds. -/
def c4Bad : Str := "0x173ff2.2020-6-20_21-33-24.jpg".data

/-- C4: the claim states that a device field that is not exactly 8 hex
characters, or a timestamp field not matching the fixed format, must
fail with a FormatError.  The code instead accepts `0x173ff2` (Python
`int(_, 16)` allows a `0x` prefix) and the unpadded month `6` (strptime
accepts 1- or 2-digit fields), so this filename parses successfully. -/
theorem C4_counterexample :
    device_datetime_info c4Bad =
      .ok ⟨"0x173ff2".data, ⟨2020, 6, 20, 21, 33, 24⟩, c4Bad⟩ := by
  decide

/-- C4 (amended): `5c173ff2.2020-06-20_21-33-24.jpg` parses to device
`5c173ff2` and datetime 2020-06-20 21:33:24; `bad.jpg` and
`ZZZZZZZZ.2020-06-20_21-33-24.jpg` fail with the wrong-arity and
invalid-device errors; and in general parsing succeeds exactly when the
filename has three dot-separated fields whose device field has length 8
and is accepted by Python `int(device, 16)` (which also allows signs,
a `0x` prefix and underscores) and whose timestamp field is accepted by
`strptime('%Y-%m-%d_%H-%M-%S')` (which also allows unpadded
month/day/hour/minute/second values). -/
theorem C4_filename_parsing :
    device_datetime_info "5c173ff2.2020-06-20_21-33-24.jpg".data =
      .ok ⟨"5c173ff2".data, ⟨2020, 6, 20, 21, 33, 24⟩,
           "5c173ff2.2020-06-20_21-33-24.jpg".data⟩
    ∧ device_datetime_info "bad.jpg".data =
      .error (.exc "Wrong file name, three dot-separated fields expected")
    ∧ device_datetime_info "ZZZZZZZZ.2020-06-20_21-33-24.jpg".data =
      .error (.exc "Invalid device name field in file")
    ∧ ∀ f : Str, (device_datetime_info f).isOk = true ↔
        ∃ d t e, splitChar '.' f = [d, t, e] ∧
          (d.length = 8 ∧ (pyIntBase16 d).isSome) ∧ (strptimeYmdHMS t).isSome := by
  refine ⟨by decide, by decide, by decide, fun f => ⟨fun h => ?_, fun h => ?_⟩⟩
  · unfold device_datetime_info at h
    split at h
    case h_1 d t e heq =>
      split at h
      case isTrue hc =>
        match hts : strptimeYmdHMS t with
        | some dt => exact ⟨d, t, e, heq, hc, by simp [hts]⟩
        | Option.none => rw [hts] at h; simp [Except.isOk, Except.toBool] at h
      case isFalse => simp [Except.isOk, Except.toBool] at h
    case h_2 => simp [Except.isOk, Except.toBool] at h
  · obtain ⟨d, t, e, hs, hc, hts⟩ := h
    unfold device_datetime_info
    rw [hs]
    simp only [hc, if_true]
    match hts2 : strptimeYmdHMS t with
    | some dt => simp [Except.isOk, Except.toBool]
    | Option.none => rw [hts2] at hts; simp at hts

/-! ### The metadata literal codec: Python values, `str(dict)` and
`ast.literal_eval`

Metadata values are the literal-representable Python values the spec
names: strings, integers, booleans, `None`, dicts and lists.  Dicts and
lists are encoded with explicit cons/nil constructors (rather than
nested `List` arguments) so that every function below is plain
structural recursion, which keeps all definitions kernel-evaluable.
Floats are outside the model (see the spec's literal-grammar note).  -/

inductive Value where
  | str (s : Str)
  | int (n : ℤ)
  | bool (b : Bool)
  | pynone
  | dnil
  | dcons (k : Str) (v : Value) (rest : Value)
  | lnil
  | lcons (v : Value) (rest : Value)
deriving DecidableEq, Repr

/-- Is this value a dict (possibly empty)? -/
def Value.isDictV : Value → Bool
  | .dnil => true
  | .dcons _ _ _ => true
  | _ => false

/-- Python `d[k]` on a dict value, as an `Option`. -/
def dictGet : Value → Str → Option Value
  | .dcons k v rest, key => if k = key then some v else dictGet rest key
  | _, _ => Option.none

/-- Printable-ASCII character (0x20–0x7e): the scope of the string
model (outside it Python `repr` switches to `\xNN`/`\uNNNN` escapes for
non-ASCII input, which the model does not cover). -/
def strOkCh (c : Char) : Bool := decide (32 ≤ c.toNat) && decide (c.toNat ≤ 126)

/-- Well-formed model string. -/
def strOk (s : Str) : Bool := s.all strOkCh

/-- Well-formed metadata value: printable-ASCII strings, dict tails are
dicts, list tails are lists, and dict keys are not duplicated. -/
def valOk : Value → Bool
  | .str s => strOk s
  | .int _ => true
  | .bool _ => true
  | .pynone => true
  | .dnil => true
  | .dcons k v rest =>
    strOk k && valOk v && valOk rest && rest.isDictV && (dictGet rest k).isNone
  | .lnil => true
  | .lcons v rest =>
    valOk v && valOk rest && (match rest with | .lnil => true | .lcons _ _ => true | _ => false)

/-- Lowercase hex digit. -/
def hexDig (n : ℕ) : Char := if n < 10 then Char.ofNat (48 + n) else Char.ofNat (87 + n)

/-- How `repr` escapes one character inside a string quoted with `q`. -/
def escChar (q c : Char) : Str :=
  if c = bslash then [bslash, bslash]
  else if c = q then [bslash, q]
  else if c = '\n' then [bslash, 'n']
  else if c = '\r' then [bslash, 'r']
  else if c = '\t' then [bslash, 't']
  else if c.toNat < 32 ∨ c.toNat = 127 then [bslash, 'x', hexDig (c.toNat / 16), hexDig (c.toNat % 16)]
  else [c]

/-- Escaped string body. -/
def escBody (q : Char) : Str → Str
  | [] => []
  | c :: r => escChar q c ++ escBody q r

/-- `repr`'s quote choice: single quotes, unless the string contains a
single quote and no double quote. -/
def reprQuote (s : Str) : Char :=
  if s.contains squote && !(s.contains dquote) then dquote else squote

/-- Python `repr` of a string. -/
def pyReprStr (s : Str) : Str :=
  let q := reprQuote s
  q :: (escBody q s ++ [q])

/-- Decimal digits of `n` (fuelled; `natDec` supplies enough fuel). -/
def natDecAux : ℕ → ℕ → Str
  | 0, _ => []
  | Nat.succ fuel, n =>
    if n < 10 then [Char.ofNat (48 + n)]
    else natDecAux fuel (n / 10) ++ [Char.ofNat (48 + n % 10)]

/-- Decimal representation of a natural number. -/
def natDec (n : ℕ) : Str := natDecAux (n + 1) n

/-- Python `repr` of an integer. -/
def intRepr (n : ℤ) : Str :=
  if n < 0 then '-' :: natDec n.natAbs else natDec n.toNat

/-- Python `str`/`repr` of a metadata value; for dicts this is exactly
the `str(self.metadata)` text the writer embeds in the `desc`
attribute.  The tails of non-empty dicts/lists are rendered by
recursing on the tail and dropping its opening brace. -/
def pyRepr : Value → Str
  | .str s => pyReprStr s
  | .int n => intRepr n
  | .bool b => if b then "True".data else "False".data
  | .pynone => "None".data
  | .dnil => [obrace, cbrace]
  | .dcons k v rest =>
    obrace :: (pyReprStr k ++ (':' :: ' ' :: pyRepr v) ++
      (match rest with
       | .dcons _ _ _ => ',' :: ' ' :: (pyRepr rest).tail
       | _ => [cbrace]))
  | .lnil => ['[', ']']
  | .lcons v rest =>
    '[' :: (pyRepr v ++
      (match rest with
       | .lcons _ _ => ',' :: ' ' :: (pyRepr rest).tail
       | _ => [']']))

example : pyRepr (.dcons "Make".data (.dcons "foo".data (.int 3) .dnil)
    (.dcons "a".data (.str "b".data) .dnil)) =
    "\x7b'Make': \x7b'foo': 3\x7d, 'a': 'b'\x7d".data := by decide

/-! `ast.literal_eval`, modelled for the deterministic literal grammar
the writer can emit (strings with both quote styles and
`\\`/`\'`/`\"`/`\n`/`\r`/`\t`/`\xNN` escapes, signed integers, `True`,
`False`, `None`, dicts, lists).  The parser is fuelled so that it stays
structurally recursive; `pyLitEval` supplies fuel larger than the input
length, which is always sufficient. -/

/-- Skip spaces (the only inter-token whitespace `repr` emits). -/
def skipSp : Str → Str
  | [] => []
  | c :: r => if c = ' ' then skipSp r else c :: r

/-- Parse a string-literal body up to the closing quote `q`. -/
def parseStrBody (q : Char) : Str → Option (Str × Str)
  | [] => Option.none
  | c :: r =>
    if c = q then some ([], r)
    else if c = bslash then
      match r with
      | e :: r2 =>
        if e = 'n' then (parseStrBody q r2).map (fun p => ('\n' :: p.1, p.2))
        else if e = 'r' then (parseStrBody q r2).map (fun p => ('\r' :: p.1, p.2))
        else if e = 't' then (parseStrBody q r2).map (fun p => ('\t' :: p.1, p.2))
        else if e = 'x' then
          match r2 with
          | h1 :: h2 :: r3 =>
            match hexVal h1, hexVal h2 with
            | some a, some b =>
              (parseStrBody q r3).map (fun p => (Char.ofNat (16 * a + b) :: p.1, p.2))
            | _, _ => Option.none
          | _ => Option.none
        else if e = bslash ∨ e = squote ∨ e = dquote then
          (parseStrBody q r2).map (fun p => (e :: p.1, p.2))
        else Option.none
      | [] => Option.none
    else if c = '\n' then Option.none
    else (parseStrBody q r).map (fun p => (c :: p.1, p.2))

/-- Parse a quoted string literal. -/
def parseStrLit (s : Str) : Option (Str × Str) :=
  match s with
  | c :: r => if c = squote ∨ c = dquote then parseStrBody c r else Option.none
  | [] => Option.none

/-- Numeric value of a digit list. -/
def digitsVal (s : Str) : ℕ := s.foldl (fun a c => a * 10 + dval c) 0

/-- Parse a signed decimal integer literal. -/
def parseIntLit (s : Str) : Option (ℤ × Str) :=
  let signed : ℤ × Str :=
    match s with
    | c :: r => if c = '-' then (-1, r) else if c = '+' then (1, r) else (1, c :: r)
    | [] => (1, [])
  let ds := signed.2.takeWhile isDig
  let rest := signed.2.dropWhile isDig
  if ds = [] then Option.none else some (signed.1 * digitsVal ds, rest)

/-- Parser modes: a full value, the entries of a non-empty dict after
the opening brace, the items of a non-empty list after the bracket. -/
inductive PMode where
  | val
  | dictEnts
  | listIts
deriving DecidableEq, Repr

/-- The fuelled literal parser. -/
def parseP : ℕ → PMode → Str → Option (Value × Str)
  | 0, _, _ => Option.none
  | Nat.succ fuel, PMode.val, s0 =>
    match skipSp s0 with
    | [] => Option.none
    | c :: r =>
      if c = squote ∨ c = dquote then
        (parseStrBody c r).map (fun p => (Value.str p.1, p.2))
      else if c = obrace then
        (match skipSp r with
         | d :: r2 => if d = cbrace then some (Value.dnil, r2) else parseP fuel PMode.dictEnts r
         | [] => Option.none)
      else if c = '[' then
        (match skipSp r with
         | d :: r2 => if d = ']' then some (Value.lnil, r2) else parseP fuel PMode.listIts r
         | [] => Option.none)
      else if c = 'T' then
        (match r with
         | 'r' :: 'u' :: 'e' :: r2 => some (Value.bool true, r2)
         | _ => Option.none)
      else if c = 'F' then
        (match r with
         | 'a' :: 'l' :: 's' :: 'e' :: r2 => some (Value.bool false, r2)
         | _ => Option.none)
      else if c = 'N' then
        (match r with
         | 'o' :: 'n' :: 'e' :: r2 => some (Value.pynone, r2)
         | _ => Option.none)
      else (parseIntLit (c :: r)).map (fun p => (Value.int p.1, p.2))
  | Nat.succ fuel, PMode.dictEnts, s0 =>
    match parseStrLit (skipSp s0) with
    | Option.none => Option.none
    | some (k, r1) =>
      match skipSp r1 with
      | c :: r2 =>
        if c = ':' then
          match parseP fuel PMode.val r2 with
          | Option.none => Option.none
          | some (v, r3) =>
            match skipSp r3 with
            | c2 :: r4 =>
              if c2 = ',' then
                match parseP fuel PMode.dictEnts r4 with
                | some (rest, r5) => some (Value.dcons k v rest, r5)
                | Option.none => Option.none
              else if c2 = cbrace then some (Value.dcons k v Value.dnil, r4)
              else Option.none
            | [] => Option.none
        else Option.none
      | [] => Option.none
  | Nat.succ fuel, PMode.listIts, s0 =>
    match parseP fuel PMode.val s0 with
    | some (v, r1) =>
      (match skipSp r1 with
       | c :: r2 =>
         if c = ',' then
           (parseP fuel PMode.listIts r2).map (fun p => (Value.lcons v p.1, p.2))
         else if c = ']' then some (Value.lcons v Value.lnil, r2)
         else Option.none
       | [] => Option.none)
    | Option.none => Option.none

/-- `ast.literal_eval` on the modelled grammar: parse one value and
require that only whitespace remains. -/
def pyLitEval (s : Str) : Option Value :=
  match parseP (s.length + 1) PMode.val s with
  | some (v, rest) => if skipSp rest = [] then some v else Option.none
  | Option.none => Option.none

example : pyLitEval "\x7b'Make': \x7b'a': 1\x7d, 'b': [True, None, -2]\x7d".data =
    some (.dcons "Make".data (.dcons "a".data (.int 1) .dnil)
      (.dcons "b".data (.lcons (.bool true) (.lcons .pynone (.lcons (.int (-2)) .lnil))) .dnil)) := by
  decide

example : pyLitEval "not a literal".data = Option.none := by decide
example : pyLitEval "\x7b\x7d".data = some .dnil := by decide

/-! ### Round-trip lemmas for the numeric printers/parsers -/

/-- First character of `s` is not a digit (or `s` is empty): under this
condition a digit run just before `s` cannot leak into `s`. -/
def headNotDig : Str → Bool
  | [] => true
  | c :: _ => !isDig c

theorem isDig_digitChar {m : ℕ} (h : m < 10) : isDig (Char.ofNat (48 + m)) = true := by
  interval_cases m <;> decide

theorem dval_digitChar {m : ℕ} (h : m < 10) : dval (Char.ofNat (48 + m)) = m := by
  interval_cases m <;> decide

theorem digitsVal_append_last (xs : Str) (c : Char) :
    digitsVal (xs ++ [c]) = digitsVal xs * 10 + dval c := by
  unfold digitsVal
  rw [List.foldl_append]
  rfl

theorem natDecAux_spec : ∀ fuel n, n < fuel →
    (natDecAux fuel n).all isDig = true ∧ natDecAux fuel n ≠ [] ∧
      digitsVal (natDecAux fuel n) = n := by
  intro fuel
  induction fuel with
  | zero => intro n h; exact absurd h (Nat.not_lt_zero n)
  | succ f ih =>
    intro n h
    by_cases h10 : n < 10
    · unfold natDecAux
      rw [if_pos h10]
      refine ⟨by simp [isDig_digitChar h10], by simp, ?_⟩
      show digitsVal ([] ++ [Char.ofNat (48 + n)]) = n
      rw [digitsVal_append_last, dval_digitChar h10]
      simp [digitsVal]
    · have hdiv : n / 10 < f := by omega
      obtain ⟨ha, hne, hv⟩ := ih (n / 10) hdiv
      have hm : n % 10 < 10 := by omega
      unfold natDecAux
      rw [if_neg h10]
      refine ⟨?_, by simp, ?_⟩
      · simp [List.all_append, ha, isDig_digitChar hm]
      · rw [digitsVal_append_last, hv, dval_digitChar hm]
        omega

theorem natDec_spec (n : ℕ) :
    (natDec n).all isDig = true ∧ natDec n ≠ [] ∧ digitsVal (natDec n) = n :=
  natDecAux_spec (n + 1) n (Nat.lt_succ_self n)

theorem takeWhile_digits : ∀ xs rest : Str, xs.all isDig = true → headNotDig rest = true →
    (xs ++ rest).takeWhile isDig = xs ∧ (xs ++ rest).dropWhile isDig = rest := by
  intro xs
  induction xs with
  | nil =>
    intro rest _ hr
    match rest with
    | [] => exact ⟨rfl, rfl⟩
    | c :: t =>
      have hc : isDig c = false := by
        unfold headNotDig at hr
        simp at hr
        exact hr
      constructor
      · show List.takeWhile isDig (c :: t) = []
        simp [List.takeWhile_cons, hc]
      · show List.dropWhile isDig (c :: t) = c :: t
        simp [List.dropWhile_cons, hc]
  | cons c t ih =>
    intro rest hall hr
    rw [List.all_cons, Bool.and_eq_true] at hall
    have hc : isDig c = true := hall.1
    have ht : t.all isDig = true := hall.2
    obtain ⟨h1, h2⟩ := ih rest ht hr
    constructor
    · show List.takeWhile isDig (c :: (t ++ rest)) = c :: t
      simp [List.takeWhile_cons, hc, h1]
    · show List.dropWhile isDig (c :: (t ++ rest)) = rest
      simp [List.dropWhile_cons, hc, h2]

theorem parseIntLit_repr (n : ℤ) (rest : Str) (hr : headNotDig rest = true) :
    parseIntLit (intRepr n ++ rest) = some (n, rest) := by
  by_cases hn : n < 0
  · obtain ⟨ha, hne, hv⟩ := natDec_spec n.natAbs
    obtain ⟨h1, h2⟩ := takeWhile_digits (natDec n.natAbs) rest ha hr
    unfold intRepr
    rw [if_pos hn]
    show parseIntLit ('-' :: (natDec n.natAbs ++ rest)) = _
    unfold parseIntLit
    simp only [reduceIte, h1, h2, if_neg hne, hv, Option.some.injEq, Prod.mk.injEq]
    exact ⟨by omega, trivial⟩
  · obtain ⟨ha, hne, hv⟩ := natDec_spec n.toNat
    obtain ⟨h1, h2⟩ := takeWhile_digits (natDec n.toNat) rest ha hr
    unfold intRepr
    rw [if_neg hn]
    match hd : natDec n.toNat with
    | [] => exact absurd hd hne
    | c :: cs =>
      have hcd : isDig c = true := by
        rw [hd] at ha
        simp [List.all_cons] at ha
        exact ha.1
      have hcm : c ≠ '-' := by rintro rfl; simp [isDig] at hcd
      have hcp : c ≠ '+' := by rintro rfl; simp [isDig] at hcd
      rw [hd] at h1 h2 hv
      show parseIntLit (c :: (cs ++ rest)) = _
      unfold parseIntLit
      simp only [if_neg hcm, if_neg hcp]
      have h1' : List.takeWhile isDig (c :: (cs ++ rest)) = c :: cs := h1
      have h2' : List.dropWhile isDig (c :: (cs ++ rest)) = rest := h2
      have hne2 : c :: cs ≠ [] := by simp
      simp only [h1', h2', if_neg hne2, hv, Option.some.injEq, Prod.mk.injEq]
      exact ⟨by omega, trivial⟩

/-! ### Round-trip lemmas for the string literal codec -/

theorem parseStrBody_close (q : Char) (rest : Str) :
    parseStrBody q (q :: rest) = some ([], rest) := by
  conv_lhs => unfold parseStrBody
  rw [if_pos rfl]

theorem parseStrBody_raw (q c : Char) (r : Str) (h1 : c ≠ q) (h2 : c ≠ bslash)
    (h3 : c ≠ '\n') :
    parseStrBody q (c :: r) = (parseStrBody q r).map (fun p => (c :: p.1, p.2)) := by
  conv_lhs => unfold parseStrBody
  rw [if_neg h1, if_neg h2, if_neg h3]

theorem parseStrBody_escQuote (q e : Char) (r : Str)
    (he : e = bslash ∨ e = squote ∨ e = dquote) (hbq : bslash ≠ q) :
    parseStrBody q (bslash :: e :: r) = (parseStrBody q r).map (fun p => (e :: p.1, p.2)) := by
  have hn : e ≠ 'n' := by rcases he with rfl | rfl | rfl <;> decide
  have hr2 : e ≠ 'r' := by rcases he with rfl | rfl | rfl <;> decide
  have ht : e ≠ 't' := by rcases he with rfl | rfl | rfl <;> decide
  have hx : e ≠ 'x' := by rcases he with rfl | rfl | rfl <;> decide
  conv_lhs => unfold parseStrBody
  rw [if_neg hbq, if_pos rfl]
  simp only [if_neg hn, if_neg hr2, if_neg ht, if_neg hx, if_pos he]

theorem escChar_raw (q c : Char) (hb : c ≠ bslash) (hq2 : c ≠ q)
    (h32 : 32 ≤ c.toNat) (h126 : c.toNat ≤ 126) :
    escChar q c = [c] := by
  have hn : c ≠ '\n' := by rintro rfl; exact absurd h32 (by decide)
  have hr : c ≠ '\r' := by rintro rfl; exact absurd h32 (by decide)
  have ht : c ≠ '\t' := by rintro rfl; exact absurd h32 (by decide)
  have hlo : ¬(c.toNat < 32 ∨ c.toNat = 127) := by omega
  unfold escChar
  rw [if_neg hb, if_neg hq2, if_neg hn, if_neg hr, if_neg ht, if_neg hlo]

theorem parseStrBody_esc (q : Char) (hq : q = squote ∨ q = dquote) :
    ∀ s rest : Str, strOk s = true →
      parseStrBody q (escBody q s ++ (q :: rest)) = some (s, rest) := by
  intro s
  induction s with
  | nil =>
    intro rest _
    show parseStrBody q (q :: rest) = _
    exact parseStrBody_close q rest
  | cons c cs ih =>
    intro rest hok
    rw [strOk, List.all_cons, Bool.and_eq_true] at hok
    have hc : 32 ≤ c.toNat ∧ c.toNat ≤ 126 := by
      have := hok.1
      rw [strOkCh, Bool.and_eq_true] at this
      constructor <;> [exact of_decide_eq_true this.1; exact of_decide_eq_true this.2]
    have hcs : strOk cs = true := hok.2
    have hbq : bslash ≠ q := by rcases hq with rfl | rfl <;> decide
    show parseStrBody q ((escChar q c ++ escBody q cs) ++ (q :: rest)) = _
    rw [List.append_assoc]
    by_cases hb : c = bslash
    · subst hb
      have he : escChar q bslash = [bslash, bslash] := by
        unfold escChar
        rw [if_pos rfl]
      rw [he]
      show parseStrBody q (bslash :: bslash :: (escBody q cs ++ (q :: rest))) = _
      rw [parseStrBody_escQuote q bslash _ (Or.inl rfl) hbq, ih rest hcs]
      rfl
    · by_cases hq2 : c = q
      · subst hq2
        have he : escChar c c = [bslash, c] := by
          unfold escChar
          rw [if_neg hb, if_pos rfl]
        rw [he]
        show parseStrBody c (bslash :: c :: (escBody c cs ++ (c :: rest))) = _
        rw [parseStrBody_escQuote c c _ (by rcases hq with rfl | rfl <;> simp) hbq,
          ih rest hcs]
        rfl
      · rw [escChar_raw q c hb hq2 hc.1 hc.2]
        show parseStrBody q (c :: (escBody q cs ++ (q :: rest))) = _
        have hn : c ≠ '\n' := by rintro rfl; exact absurd hc.1 (by decide)
        rw [parseStrBody_raw q c _ hq2 hb hn, ih rest hcs]
        rfl

theorem reprQuote_cases (s : Str) : reprQuote s = squote ∨ reprQuote s = dquote := by
  unfold reprQuote
  split
  · exact Or.inr rfl
  · exact Or.inl rfl

theorem parseStrLit_repr (s rest : Str) (hok : strOk s = true) :
    parseStrLit (pyReprStr s ++ rest) = some (s, rest) := by
  have hq := reprQuote_cases s
  show parseStrLit ((reprQuote s :: (escBody (reprQuote s) s ++ [reprQuote s])) ++ rest) = _
  simp only [parseStrLit, List.cons_append, if_pos hq]
  rw [List.append_assoc]
  show parseStrBody (reprQuote s) (escBody (reprQuote s) s ++ (reprQuote s :: rest)) = _
  exact parseStrBody_esc (reprQuote s) hq s rest hok

/-! ### Whitespace and length helper lemmas for the literal parser -/

theorem skipSp_sp (X : Str) : skipSp (' ' :: X) = skipSp X := by
  conv_lhs => unfold skipSp
  rw [if_pos rfl]

theorem skipSp_cons (c : Char) (t : Str) (h : c ≠ ' ') : skipSp (c :: t) = c :: t := by
  conv_lhs => unfold skipSp
  rw [if_neg h]

theorem skipSp_colon (X : Str) : skipSp (':' :: X) = ':' :: X := skipSp_cons _ _ (by decide)

theorem skipSp_comma (X : Str) : skipSp (',' :: X) = ',' :: X := skipSp_cons _ _ (by decide)

theorem skipSp_cbrace (X : Str) : skipSp (cbrace :: X) = cbrace :: X := skipSp_cons _ _ (by decide)

theorem skipSp_rbracket (X : Str) : skipSp (']' :: X) = ']' :: X := skipSp_cons _ _ (by decide)

theorem parseP_val_space (f : ℕ) (X : Str) :
    parseP f PMode.val (' ' :: X) = parseP f PMode.val X := by
  cases f with
  | zero => rfl
  | succ g =>
    conv_lhs => unfold parseP
    conv_rhs => unfold parseP
    rw [skipSp_sp]

theorem parseP_ents_space (f : ℕ) (X : Str) :
    parseP f PMode.dictEnts (' ' :: X) = parseP f PMode.dictEnts X := by
  cases f with
  | zero => rfl
  | succ g =>
    conv_lhs => unfold parseP
    conv_rhs => unfold parseP
    rw [skipSp_sp]

theorem parseP_its_space (f : ℕ) (X : Str) :
    parseP f PMode.listIts (' ' :: X) = parseP f PMode.listIts X := by
  cases f with
  | zero => rfl
  | succ g =>
    conv_lhs => unfold parseP
    conv_rhs => unfold parseP
    rw [parseP_val_space]

theorem pyRepr_length_pos : ∀ v : Value, 1 ≤ (pyRepr v).length := by
  intro v
  cases v with
  | str s => simp [pyRepr, pyReprStr]
  | int n =>
    obtain ⟨_, hne, _⟩ := natDec_spec n.natAbs
    obtain ⟨_, hne2, _⟩ := natDec_spec n.toNat
    unfold pyRepr intRepr
    by_cases hn : n < 0
    · rw [if_pos hn]; simp
    · rw [if_neg hn]
      cases h : natDec n.toNat with
      | nil => exact absurd h hne2
      | cons c cs => simp
  | bool b => cases b <;> simp [pyRepr]
  | pynone => simp [pyRepr]
  | dnil => simp [pyRepr]
  | dcons k v' d' => simp [pyRepr]
  | lnil => simp [pyRepr]
  | lcons v' l' => simp [pyRepr]

theorem pyReprStr_length (s : Str) :
    (pyReprStr s).length = 2 + (escBody (reprQuote s) s).length := by
  simp [pyReprStr]
  omega

theorem reprQuote_ne_space (s : Str) : reprQuote s ≠ ' ' := by
  rcases reprQuote_cases s with h | h <;> rw [h] <;> decide

theorem reprQuote_ne_cbrace (s : Str) : reprQuote s ≠ cbrace := by
  rcases reprQuote_cases s with h | h <;> rw [h] <;> decide

theorem reprQuote_ne_rbracket (s : Str) : reprQuote s ≠ ']' := by
  rcases reprQuote_cases s with h | h <;> rw [h] <;> decide

theorem ne_of_toNat_ne {c d : Char} (h : c.toNat ≠ d.toNat) : c ≠ d :=
  fun he => h (he ▸ rfl)

theorem isDig_toNat {c : Char} (h : isDig c = true) : 48 ≤ c.toNat ∧ c.toNat ≤ 57 := by
  rw [isDig, Bool.and_eq_true, decide_eq_true_eq, decide_eq_true_eq] at h
  exact ⟨h.1, h.2⟩

theorem parseStrLit_skip (k : Str) (hk : strOk k = true) (R : Str) :
    parseStrLit (skipSp (pyReprStr k ++ R)) = some (k, R) := by
  have h1 : pyReprStr k ++ R =
      reprQuote k :: ((escBody (reprQuote k) k ++ [reprQuote k]) ++ R) := by
    simp [pyReprStr]
  rw [h1, skipSp_cons _ _ (reprQuote_ne_space k), ← h1]
  exact parseStrLit_repr k R hk

/-- Head-character dispatch facts: whatever `pyRepr v` starts with, it
is not a space, a closing bracket, a closing brace or a comma. -/
theorem pyRepr_head_props (v : Value) (c : Char) (t : Str) (h : pyRepr v = c :: t) :
    c ≠ ' ' ∧ c ≠ ']' ∧ c ≠ cbrace ∧ c ≠ ',' := by
  cases v with
  | str s =>
    rw [show pyRepr (Value.str s) =
        reprQuote s :: (escBody (reprQuote s) s ++ [reprQuote s]) from rfl] at h
    injection h with h1 _
    subst h1
    refine ⟨?_, ?_, ?_, ?_⟩ <;> rcases reprQuote_cases s with hq | hq <;> rw [hq] <;> decide
  | int n =>
    have key : ∃ c0 t0, intRepr n = c0 :: t0 ∧ (c0 = '-' ∨ isDig c0 = true) := by
      unfold intRepr
      by_cases hn : n < 0
      · rw [if_pos hn]; exact ⟨'-', _, rfl, Or.inl rfl⟩
      · rw [if_neg hn]
        obtain ⟨ha, hne, _⟩ := natDec_spec n.toNat
        cases hnd : natDec n.toNat with
        | nil => exact absurd hnd hne
        | cons c0 cs =>
          rw [hnd, List.all_cons, Bool.and_eq_true] at ha
          exact ⟨c0, cs, rfl, Or.inr ha.1⟩
    obtain ⟨c0, t0, hct, hc⟩ := key
    rw [show pyRepr (Value.int n) = intRepr n from rfl, hct] at h
    injection h with h1 _
    subst h1
    have e1 : (' ' : Char).toNat = 32 := by decide
    have e2 : (']' : Char).toNat = 93 := by decide
    have e3 : cbrace.toNat = 125 := by decide
    have e4 : (',' : Char).toNat = 44 := by decide
    refine ⟨?_, ?_, ?_, ?_⟩ <;>
      (rcases hc with rfl | hd
       · decide
       · have hb := isDig_toNat hd
         exact ne_of_toNat_ne (by omega))
  | bool b =>
    cases b with
    | false =>
      rw [show pyRepr (Value.bool false) = ['F', 'a', 'l', 's', 'e'] from rfl] at h
      injection h with h1 _
      subst h1
      exact ⟨by decide, by decide, by decide, by decide⟩
    | true =>
      rw [show pyRepr (Value.bool true) = ['T', 'r', 'u', 'e'] from rfl] at h
      injection h with h1 _
      subst h1
      exact ⟨by decide, by decide, by decide, by decide⟩
  | pynone =>
    rw [show pyRepr Value.pynone = ['N', 'o', 'n', 'e'] from rfl] at h
    injection h with h1 _
    subst h1
    exact ⟨by decide, by decide, by decide, by decide⟩
  | dnil =>
    rw [show pyRepr Value.dnil = [obrace, cbrace] from rfl] at h
    injection h with h1 _
    subst h1
    exact ⟨by decide, by decide, by decide, by decide⟩
  | dcons k v' d' =>
    have hu : ∃ X, pyRepr (Value.dcons k v' d') = obrace :: X := ⟨_, rfl⟩
    obtain ⟨X, hx⟩ := hu
    rw [hx] at h
    injection h with h1 _
    subst h1
    exact ⟨by decide, by decide, by decide, by decide⟩
  | lnil =>
    rw [show pyRepr Value.lnil = ['[', ']'] from rfl] at h
    injection h with h1 _
    subst h1
    exact ⟨by decide, by decide, by decide, by decide⟩
  | lcons v' l' =>
    have hu : ∃ X, pyRepr (Value.lcons v' l') = '[' :: X := ⟨_, rfl⟩
    obtain ⟨X, hx⟩ := hu
    rw [hx] at h
    injection h with h1 _
    subst h1
    exact ⟨by decide, by decide, by decide, by decide⟩

/-- Is this value a non-empty dict? -/
def Value.isDconsV : Value → Bool
  | .dcons _ _ _ => true
  | _ => false

/-- Is this value a non-empty list? -/
def Value.isLconsV : Value → Bool
  | .lcons _ _ => true
  | _ => false

theorem pyRepr_dcons_head (k : Str) (v' d' : Value) :
    pyRepr (Value.dcons k v' d') = obrace :: (pyRepr (Value.dcons k v' d')).tail := rfl

theorem pyRepr_lcons_head (v' l' : Value) :
    pyRepr (Value.lcons v' l') = '[' :: (pyRepr (Value.lcons v' l')).tail := rfl

theorem pyRepr_dcons_dnil (k : Str) (v' : Value) :
    pyRepr (Value.dcons k v' Value.dnil) =
      obrace :: (pyReprStr k ++ (':' :: ' ' :: pyRepr v') ++ [cbrace]) := rfl

theorem pyRepr_dcons_dcons (k : Str) (v' : Value) (k2 : Str) (v2 d2 : Value) :
    pyRepr (Value.dcons k v' (Value.dcons k2 v2 d2)) =
      obrace :: (pyReprStr k ++ (':' :: ' ' :: pyRepr v') ++
        (',' :: ' ' :: (pyRepr (Value.dcons k2 v2 d2)).tail)) := rfl

theorem pyRepr_lcons_lnil (v' : Value) :
    pyRepr (Value.lcons v' Value.lnil) = '[' :: (pyRepr v' ++ [']']) := rfl

theorem pyRepr_lcons_lcons (v' v2 l2 : Value) :
    pyRepr (Value.lcons v' (Value.lcons v2 l2)) =
      '[' :: (pyRepr v' ++ (',' :: ' ' :: (pyRepr (Value.lcons v2 l2)).tail)) := rfl

theorem pyReprStr_cons (k : Str) :
    pyReprStr k = reprQuote k :: (escBody (reprQuote k) k ++ [reprQuote k]) := rfl

/-- Dispatch conditions for the head character of an integer literal. -/
theorem int_head_conds (c : Char) (h : c = '-' ∨ isDig c = true) :
    ¬(c = squote ∨ c = dquote) ∧ c ≠ obrace ∧ c ≠ '[' ∧ c ≠ 'T' ∧ c ≠ 'F' ∧
      c ≠ 'N' ∧ c ≠ ' ' := by
  rcases h with rfl | hd
  · exact ⟨by decide, by decide, by decide, by decide, by decide, by decide, by decide⟩
  · have hb := isDig_toNat hd
    have e1 : squote.toNat = 39 := by decide
    have e2 : dquote.toNat = 34 := by decide
    have e3 : obrace.toNat = 123 := by decide
    have e4 : ('[' : Char).toNat = 91 := by decide
    have e5 : ('T' : Char).toNat = 84 := by decide
    have e6 : ('F' : Char).toNat = 70 := by decide
    have e7 : ('N' : Char).toNat = 78 := by decide
    have e8 : (' ' : Char).toNat = 32 := by decide
    refine ⟨?_, ?_, ?_, ?_, ?_, ?_, ?_⟩
    · rintro (rfl | rfl) <;> omega
    all_goals exact ne_of_toNat_ne (by omega)

/-- Core round-trip property of the metadata literal codec: parsing the
printed form of a well-formed value consumes exactly that printed form,
in each of the three parser modes. -/
theorem parseP_repr : ∀ v : Value,
    (∀ fuel rest, valOk v = true → headNotDig rest = true →
        (pyRepr v).length < fuel →
        parseP fuel PMode.val (pyRepr v ++ rest) = some (v, rest))
    ∧ (∀ fuel rest, valOk v = true → Value.isDconsV v = true →
        (pyRepr v).length ≤ fuel →
        parseP fuel PMode.dictEnts ((pyRepr v).tail ++ rest) = some (v, rest))
    ∧ (∀ fuel rest, valOk v = true → Value.isLconsV v = true →
        (pyRepr v).length ≤ fuel →
        parseP fuel PMode.listIts ((pyRepr v).tail ++ rest) = some (v, rest)) := by
  intro v
  induction v with
  | str s =>
    refine ⟨?_, ?_, ?_⟩
    · intro fuel rest hok hr hlen
      obtain ⟨g, rfl⟩ : ∃ g, fuel = g + 1 := ⟨fuel - 1, by omega⟩
      unfold parseP
      have hform : pyRepr (Value.str s) ++ rest =
          reprQuote s :: ((escBody (reprQuote s) s ++ [reprQuote s]) ++ rest) := by
        rw [show pyRepr (Value.str s) =
          reprQuote s :: (escBody (reprQuote s) s ++ [reprQuote s]) from rfl]
        rfl
      rw [hform, skipSp_cons _ _ (reprQuote_ne_space s)]
      simp only [if_pos (reprQuote_cases s)]
      rw [List.append_assoc,
        show ([reprQuote s] ++ rest : Str) = reprQuote s :: rest from rfl,
        parseStrBody_esc (reprQuote s) (reprQuote_cases s) s rest hok]
      rfl
    · intro _ _ _ h _; simp [Value.isDconsV] at h
    · intro _ _ _ h _; simp [Value.isLconsV] at h
  | int n =>
    refine ⟨?_, ?_, ?_⟩
    · intro fuel rest hok hr hlen
      obtain ⟨g, rfl⟩ : ∃ g, fuel = g + 1 := ⟨fuel - 1, by omega⟩
      have key : ∃ c cs, intRepr n = c :: cs ∧ (c = '-' ∨ isDig c = true) := by
        unfold intRepr
        by_cases hn : n < 0
        · rw [if_pos hn]; exact ⟨'-', _, rfl, Or.inl rfl⟩
        · rw [if_neg hn]
          obtain ⟨ha, hne, _⟩ := natDec_spec n.toNat
          cases hnd : natDec n.toNat with
          | nil => exact absurd hnd hne
          | cons c0 cs =>
            rw [hnd, List.all_cons, Bool.and_eq_true] at ha
            exact ⟨c0, cs, rfl, Or.inr ha.1⟩
      obtain ⟨c, cs, hic, hcp⟩ := key
      obtain ⟨hq, hob, hlb, hT, hF, hN, hsp⟩ := int_head_conds c hcp
      unfold parseP
      have hform : pyRepr (Value.int n) ++ rest = c :: (cs ++ rest) := by
        rw [show pyRepr (Value.int n) = intRepr n from rfl, hic]
        rfl
      rw [hform, skipSp_cons _ _ hsp]
      simp only [if_neg hq, if_neg hob, if_neg hlb, if_neg hT, if_neg hF, if_neg hN]
      have hpi := parseIntLit_repr n rest hr
      rw [hic] at hpi
      simp only [List.cons_append] at hpi
      rw [hpi]
      rfl
    · intro _ _ _ h _; simp [Value.isDconsV] at h
    · intro _ _ _ h _; simp [Value.isLconsV] at h
  | bool b =>
    refine ⟨?_, ?_, ?_⟩
    · intro fuel rest hok hr hlen
      obtain ⟨g, rfl⟩ : ∃ g, fuel = g + 1 := ⟨fuel - 1, by omega⟩
      cases b <;> rfl
    · intro _ _ _ h _; simp [Value.isDconsV] at h
    · intro _ _ _ h _; simp [Value.isLconsV] at h
  | pynone =>
    refine ⟨?_, ?_, ?_⟩
    · intro fuel rest hok hr hlen
      obtain ⟨g, rfl⟩ : ∃ g, fuel = g + 1 := ⟨fuel - 1, by omega⟩
      rfl
    · intro _ _ _ h _; simp [Value.isDconsV] at h
    · intro _ _ _ h _; simp [Value.isLconsV] at h
  | dnil =>
    refine ⟨?_, ?_, ?_⟩
    · intro fuel rest hok hr hlen
      obtain ⟨g, rfl⟩ : ∃ g, fuel = g + 1 := ⟨fuel - 1, by omega⟩
      rfl
    · intro _ _ _ h _; simp [Value.isDconsV] at h
    · intro _ _ _ h _; simp [Value.isLconsV] at h
  | lnil =>
    refine ⟨?_, ?_, ?_⟩
    · intro fuel rest hok hr hlen
      obtain ⟨g, rfl⟩ : ∃ g, fuel = g + 1 := ⟨fuel - 1, by omega⟩
      rfl
    · intro _ _ _ h _; simp [Value.isDconsV] at h
    · intro _ _ _ h _; simp [Value.isLconsV] at h
  | dcons k v' d' ihv ihd =>
    have hSD : ∀ fuel rest, valOk (Value.dcons k v' d') = true →
        (pyRepr (Value.dcons k v' d')).length ≤ fuel →
        parseP fuel PMode.dictEnts ((pyRepr (Value.dcons k v' d')).tail ++ rest) =
          some (Value.dcons k v' d', rest) := by
      intro fuel rest hok hlen
      have hokd := hok
      simp only [valOk, Bool.and_eq_true] at hokd
      obtain ⟨⟨⟨⟨hk, hv⟩, hd⟩, hdict⟩, -⟩ := hokd
      have hlv := pyRepr_length_pos v'
      have hld := pyRepr_length_pos d'
      have hlkl := pyReprStr_length k
      obtain ⟨g, rfl⟩ : ∃ g, fuel = g + 1 :=
        ⟨fuel - 1, by have := pyRepr_length_pos (Value.dcons k v' d'); omega⟩
      cases d' with
      | dnil =>
        have hL : (pyRepr (Value.dcons k v' Value.dnil)).length =
            1 + (pyReprStr k).length + 2 + (pyRepr v').length + 1 := by
          rw [pyRepr_dcons_dnil]
          simp [List.length_append]
          omega
        have hih : parseP g PMode.val (pyRepr v' ++ cbrace :: rest) =
            some (v', cbrace :: rest) :=
          ihv.1 g (cbrace :: rest) hv (by rfl) (by omega)
        rw [pyRepr_dcons_dnil, List.tail_cons]
        unfold parseP
        rw [List.append_assoc, List.append_assoc]
        simp only [parseStrLit_skip k hk, List.cons_append, List.nil_append,
          skipSp_colon, skipSp_comma, skipSp_cbrace, reduceIte,
          parseP_val_space, hih,
          if_neg (by decide : ¬(cbrace = ','))]
      | dcons k2 v2 d2 =>
        have hL : (pyRepr (Value.dcons k v' (Value.dcons k2 v2 d2))).length =
            1 + (pyReprStr k).length + 2 + (pyRepr v').length + 2 +
              ((pyRepr (Value.dcons k2 v2 d2)).length - 1) := by
          rw [pyRepr_dcons_dcons]
          simp [List.length_append, List.length_tail]
          omega
        have hld2 := pyRepr_length_pos (Value.dcons k2 v2 d2)
        have hih : parseP g PMode.val
              (pyRepr v' ++ ',' :: ' ' :: ((pyRepr (Value.dcons k2 v2 d2)).tail ++ rest)) =
            some (v', ',' :: ' ' :: ((pyRepr (Value.dcons k2 v2 d2)).tail ++ rest)) :=
          ihv.1 g (',' :: ' ' :: ((pyRepr (Value.dcons k2 v2 d2)).tail ++ rest)) hv
            (by rfl) (by omega)
        have hih2 : parseP g PMode.dictEnts ((pyRepr (Value.dcons k2 v2 d2)).tail ++ rest) =
            some (Value.dcons k2 v2 d2, rest) :=
          ihd.2.1 g rest hd (by rfl) (by omega)
        rw [pyRepr_dcons_dcons, List.tail_cons]
        unfold parseP
        rw [List.append_assoc, List.append_assoc]
        simp only [parseStrLit_skip k hk, List.cons_append, List.nil_append,
          List.append_assoc, skipSp_colon, skipSp_comma, reduceIte,
          parseP_val_space, parseP_ents_space, hih, hih2]
      | str s2 => simp [Value.isDictV] at hdict
      | int n2 => simp [Value.isDictV] at hdict
      | bool b2 => simp [Value.isDictV] at hdict
      | pynone => simp [Value.isDictV] at hdict
      | lnil => simp [Value.isDictV] at hdict
      | lcons a b => simp [Value.isDictV] at hdict
    refine ⟨?_, ?_, ?_⟩
    · intro fuel rest hok hr hlen
      obtain ⟨g, rfl⟩ : ∃ g, fuel = g + 1 := ⟨fuel - 1, by omega⟩
      conv_lhs => rw [pyRepr_dcons_head]
      simp only [List.cons_append]
      unfold parseP
      rw [skipSp_cons obrace _ (by decide)]
      simp only [if_neg (by decide : ¬(obrace = squote ∨ obrace = dquote)), reduceIte]
      have hres := hSD g rest hok (by omega)
      have hexp : (pyRepr (Value.dcons k v' d')).tail ++ rest =
          reprQuote k :: ((escBody (reprQuote k) k ++ [reprQuote k]) ++
            ((pyRepr (Value.dcons k v' d')).tail.drop (pyReprStr k).length ++ rest)) := by
        have : (pyRepr (Value.dcons k v' d')).tail =
            pyReprStr k ++ (pyRepr (Value.dcons k v' d')).tail.drop (pyReprStr k).length := by
          cases d' with
          | dnil =>
            rw [pyRepr_dcons_dnil, List.tail_cons, List.append_assoc]
            rw [List.drop_left]
          | dcons k2 v2 d2 =>
            rw [pyRepr_dcons_dcons, List.tail_cons, List.append_assoc]
            rw [List.drop_left]
          | str s2 =>
            have := hok
            simp only [valOk, Bool.and_eq_true] at this
            obtain ⟨⟨⟨⟨_, _⟩, _⟩, hdict⟩, -⟩ := this
            simp [Value.isDictV] at hdict
          | int n2 =>
            have := hok
            simp only [valOk, Bool.and_eq_true] at this
            obtain ⟨⟨⟨⟨_, _⟩, _⟩, hdict⟩, -⟩ := this
            simp [Value.isDictV] at hdict
          | bool b2 =>
            have := hok
            simp only [valOk, Bool.and_eq_true] at this
            obtain ⟨⟨⟨⟨_, _⟩, _⟩, hdict⟩, -⟩ := this
            simp [Value.isDictV] at hdict
          | pynone =>
            have := hok
            simp only [valOk, Bool.and_eq_true] at this
            obtain ⟨⟨⟨⟨_, _⟩, _⟩, hdict⟩, -⟩ := this
            simp [Value.isDictV] at hdict
          | lnil =>
            have := hok
            simp only [valOk, Bool.and_eq_true] at this
            obtain ⟨⟨⟨⟨_, _⟩, _⟩, hdict⟩, -⟩ := this
            simp [Value.isDictV] at hdict
          | lcons a b =>
            have := hok
            simp only [valOk, Bool.and_eq_true] at this
            obtain ⟨⟨⟨⟨_, _⟩, _⟩, hdict⟩, -⟩ := this
            simp [Value.isDictV] at hdict
        conv_lhs => rw [this]
        rw [pyReprStr_cons]
        simp only [List.cons_append, List.append_assoc]
      rw [hexp, skipSp_cons _ _ (reprQuote_ne_space k)]
      simp only [reduceIte, if_neg (reprQuote_ne_cbrace k)]
      rw [← hexp]
      exact hres
    · intro fuel rest hok _ hlen
      exact hSD fuel rest hok hlen
    · intro _ _ _ h _; simp [Value.isLconsV] at h
  | lcons v' l' ihv ihl =>
    have hSL : ∀ fuel rest, valOk (Value.lcons v' l') = true →
        (pyRepr (Value.lcons v' l')).length ≤ fuel →
        parseP fuel PMode.listIts ((pyRepr (Value.lcons v' l')).tail ++ rest) =
          some (Value.lcons v' l', rest) := by
      intro fuel rest hok hlen
      have hokd := hok
      simp only [valOk, Bool.and_eq_true] at hokd
      obtain ⟨⟨hv, hl⟩, hlist⟩ := hokd
      have hlv := pyRepr_length_pos v'
      have hll := pyRepr_length_pos l'
      obtain ⟨g, rfl⟩ : ∃ g, fuel = g + 1 :=
        ⟨fuel - 1, by have := pyRepr_length_pos (Value.lcons v' l'); omega⟩
      cases l' with
      | lnil =>
        have hL : (pyRepr (Value.lcons v' Value.lnil)).length =
            1 + (pyRepr v').length + 1 := by
          rw [pyRepr_lcons_lnil]
          simp [List.length_append]
          omega
        have hih : parseP g PMode.val (pyRepr v' ++ ']' :: rest) =
            some (v', ']' :: rest) :=
          ihv.1 g (']' :: rest) hv (by rfl) (by omega)
        rw [pyRepr_lcons_lnil, List.tail_cons]
        unfold parseP
        rw [List.append_assoc]
        simp only [List.cons_append, List.nil_append, hih, skipSp_rbracket,
          reduceIte, if_neg (by decide : ¬((']' : Char) = ','))]
      | lcons v2 l2 =>
        have hll2 := pyRepr_length_pos (Value.lcons v2 l2)
        have hL : (pyRepr (Value.lcons v' (Value.lcons v2 l2))).length =
            1 + (pyRepr v').length + 2 + ((pyRepr (Value.lcons v2 l2)).length - 1) := by
          rw [pyRepr_lcons_lcons]
          simp [List.length_append, List.length_tail]
          omega
        have hih : parseP g PMode.val
              (pyRepr v' ++ ',' :: ' ' :: ((pyRepr (Value.lcons v2 l2)).tail ++ rest)) =
            some (v', ',' :: ' ' :: ((pyRepr (Value.lcons v2 l2)).tail ++ rest)) :=
          ihv.1 g (',' :: ' ' :: ((pyRepr (Value.lcons v2 l2)).tail ++ rest)) hv
            (by rfl) (by omega)
        have hih2 : parseP g PMode.listIts ((pyRepr (Value.lcons v2 l2)).tail ++ rest) =
            some (Value.lcons v2 l2, rest) :=
          ihl.2.2 g rest hl (by rfl) (by omega)
        rw [pyRepr_lcons_lcons, List.tail_cons]
        unfold parseP
        rw [List.append_assoc]
        simp only [List.cons_append, List.nil_append, List.append_assoc,
          hih, hih2, skipSp_comma, reduceIte, parseP_its_space]
        rfl
      | str s2 => simp at hlist
      | int n2 => simp at hlist
      | bool b2 => simp at hlist
      | pynone => simp at hlist
      | dnil => simp at hlist
      | dcons a b c => simp at hlist
    refine ⟨?_, ?_, ?_⟩
    · intro fuel rest hok hr hlen
      obtain ⟨g, rfl⟩ : ∃ g, fuel = g + 1 := ⟨fuel - 1, by omega⟩
      conv_lhs => rw [pyRepr_lcons_head]
      simp only [List.cons_append]
      unfold parseP
      rw [skipSp_cons '[' _ (by decide)]
      simp only [if_neg (by decide : ¬(('[' : Char) = squote ∨ ('[' : Char) = dquote)),
        if_neg (by decide : ¬(('[' : Char) = obrace)), reduceIte]
      have hres := hSL g rest hok (by omega)
      have hokd := hok
      simp only [valOk, Bool.and_eq_true] at hokd
      obtain ⟨⟨hv, hl⟩, hlist⟩ := hokd
      obtain ⟨R2, hR2⟩ : ∃ R2, (pyRepr (Value.lcons v' l')).tail ++ rest =
          pyRepr v' ++ R2 := by
        cases l' with
        | lnil =>
          refine ⟨']' :: rest, ?_⟩
          rw [pyRepr_lcons_lnil, List.tail_cons, List.append_assoc]
          rfl
        | lcons v2 l2 =>
          refine ⟨',' :: ' ' :: ((pyRepr (Value.lcons v2 l2)).tail ++ rest), ?_⟩
          rw [pyRepr_lcons_lcons, List.tail_cons, List.append_assoc]
          rfl
        | str s2 => simp at hlist
        | int n2 => simp at hlist
        | bool b2 => simp at hlist
        | pynone => simp at hlist
        | dnil => simp at hlist
        | dcons a b c => simp at hlist
      have hne : pyRepr v' ≠ [] := by
        have := pyRepr_length_pos v'
        intro hcon
        rw [hcon] at this
        simp at this
      obtain ⟨c0, t0, hct⟩ := List.exists_cons_of_ne_nil hne
      obtain ⟨hc0sp, hc0rb, -, -⟩ := pyRepr_head_props v' c0 t0 hct
      have hcons : (pyRepr (Value.lcons v' l')).tail ++ rest = c0 :: (t0 ++ R2) := by
        rw [hR2, hct]
        rfl
      rw [hcons, skipSp_cons c0 _ hc0sp]
      simp only [reduceIte, if_neg hc0rb]
      rw [← hcons]
      exact hres
    · intro _ _ _ h _; simp [Value.isDconsV] at h
    · intro fuel rest hok _ hlen
      exact hSL fuel rest hok hlen

/-- The metadata literal codec round-trips: `literal_eval(str(v)) = v`
for every well-formed metadata value. -/
theorem pyLitEval_pyRepr (v : Value) (h : valOk v = true) :
    pyLitEval (pyRepr v) = some v := by
  unfold pyLitEval
  have hp := (parseP_repr v).1 ((pyRepr v).length + 1) [] h rfl (Nat.lt_succ_self _)
  rw [List.append_nil] at hp
  rw [hp]
  rfl

/-! ### `base64.b64encode` / `base64.b64decode`

The standard base64 codec used by the writer (`_img_buffer`) and the
reader (`extract_jpeg`).  Bytes are naturals below 256.  Decoding
models CPython's default non-strict mode: characters outside the
alphabet are discarded before decoding, and a padding group must end
the input. -/

/-- The base64 alphabet. -/
def b64chars : List Char :=
  "ABCDEFGHIJKLMNOPQRSTUVWXYZabcdefghijklmnopqrstuvwxyz0123456789+/".data

/-- Value → alphabet character. -/
def b64c (n : ℕ) : Char := b64chars.getD n 'A'

/-- Find a character's index in the alphabet. -/
def c2bAux (c : Char) : List Char → ℕ → Option ℕ
  | [], _ => Option.none
  | d :: rest, i => if d = c then some i else c2bAux c rest (i + 1)

/-- Alphabet character → value. -/
def c2b (c : Char) : Option ℕ := c2bAux c b64chars 0

/-- `base64.b64encode` on a byte list. -/
def b64encode : List ℕ → Str
  | [] => []
  | [a] => [b64c (a / 4), b64c (a % 4 * 16), '=', '=']
  | [a, b] => [b64c (a / 4), b64c (a % 4 * 16 + b / 16), b64c (b % 16 * 4), '=']
  | a :: b :: c :: rest =>
    b64c (a / 4) :: b64c (a % 4 * 16 + b / 16) :: b64c (b % 16 * 4 + c / 64) ::
      b64c (c % 64) :: b64encode rest

/-- Keep only alphabet characters and padding (CPython discards the rest). -/
def b64filter (s : Str) : Str := s.filter (fun c => (c2b c).isSome || c = '=')

/-- Decode filtered 4-character groups. -/
def b64decodeGroups : Str → Option (List ℕ)
  | [] => some []
  | c1 :: c2 :: c3 :: c4 :: rest =>
    (match c2b c1, c2b c2 with
     | some v1, some v2 =>
       if c3 = '=' then
         (if c4 = '=' ∧ rest = [] then some [v1 * 4 + v2 / 16] else Option.none)
       else
         (match c2b c3 with
          | some v3 =>
            if c4 = '=' then
              (if rest = [] then some [v1 * 4 + v2 / 16, v2 % 16 * 16 + v3 / 4]
               else Option.none)
            else
              (match c2b c4 with
               | some v4 =>
                 (b64decodeGroups rest).map
                   (fun bs => (v1 * 4 + v2 / 16) :: (v2 % 16 * 16 + v3 / 4) ::
                     (v3 % 4 * 64 + v4) :: bs)
               | Option.none => Option.none)
          | Option.none => Option.none)
     | _, _ => Option.none)
  | _ => Option.none

/-- `base64.b64decode` (non-strict). -/
def b64decode (s : Str) : Option (List ℕ) := b64decodeGroups (b64filter s)

example : b64decode (b64encode [77, 97, 110]) = some [77, 97, 110] := by decide
example : b64decode (b64encode [77, 97]) = some [77, 97] := by decide
example : b64decode (b64encode [77]) = some [77] := by decide

theorem c2b_b64c : ∀ n < 64, c2b (b64c n) = some n := by decide

theorem b64c_ne_eq : ∀ n < 64, b64c n ≠ '=' := by decide

theorem b64c_props : ∀ n < 64, b64c n ≠ ',' ∧ b64c n ≠ squote ∧ b64c n ≠ dquote := by decide

/-- Every character the encoder emits is an alphabet character or padding. -/
theorem b64encode_chars : ∀ n (bs : List ℕ), bs.length ≤ n → (∀ x ∈ bs, x < 256) →
    ∀ c ∈ b64encode bs, ((c2b c).isSome || c = '=') = true := by
  intro n
  induction n with
  | zero =>
    intro bs hl _ c hc
    have hnil : bs = [] := List.length_eq_zero.mp (Nat.le_zero.mp hl)
    subst hnil
    rw [show b64encode [] = [] from rfl] at hc
    simp at hc
  | succ m ih =>
    intro bs hl hb c hc
    match bs with
    | [] =>
      rw [show b64encode [] = [] from rfl] at hc
      simp at hc
    | [a] =>
      have ha : a < 256 := hb a (by simp)
      rw [show b64encode [a] = [b64c (a / 4), b64c (a % 4 * 16), '=', '='] from rfl] at hc
      have h1 : a / 4 < 64 := by omega
      have h2 : a % 4 * 16 < 64 := by omega
      simp only [List.mem_cons, List.not_mem_nil, or_false] at hc
      rcases hc with rfl | rfl | rfl | rfl
      · simp [c2b_b64c _ h1]
      · simp [c2b_b64c _ h2]
      · simp
      · simp
    | [a, b] =>
      have ha : a < 256 := hb a (by simp)
      have hb2 : b < 256 := hb b (by simp)
      rw [show b64encode [a, b] =
        [b64c (a / 4), b64c (a % 4 * 16 + b / 16), b64c (b % 16 * 4), '='] from rfl] at hc
      have h1 : a / 4 < 64 := by omega
      have h2 : a % 4 * 16 + b / 16 < 64 := by omega
      have h3 : b % 16 * 4 < 64 := by omega
      simp only [List.mem_cons, List.not_mem_nil, or_false] at hc
      rcases hc with rfl | rfl | rfl | rfl
      · simp [c2b_b64c _ h1]
      · simp [c2b_b64c _ h2]
      · simp [c2b_b64c _ h3]
      · simp
    | a :: b :: d :: rest =>
      have ha : a < 256 := hb a (by simp)
      have hb2 : b < 256 := hb b (by simp)
      have hd : d < 256 := hb d (by simp)
      rw [show b64encode (a :: b :: d :: rest) =
        b64c (a / 4) :: b64c (a % 4 * 16 + b / 16) :: b64c (b % 16 * 4 + d / 64) ::
          b64c (d % 64) :: b64encode rest from rfl] at hc
      have h1 : a / 4 < 64 := by omega
      have h2 : a % 4 * 16 + b / 16 < 64 := by omega
      have h3 : b % 16 * 4 + d / 64 < 64 := by omega
      have h4 : d % 64 < 64 := by omega
      simp only [List.mem_cons] at hc
      rcases hc with rfl | rfl | rfl | rfl | hc
      · simp [c2b_b64c _ h1]
      · simp [c2b_b64c _ h2]
      · simp [c2b_b64c _ h3]
      · simp [c2b_b64c _ h4]
      · refine ih rest ?_ (fun x hx => hb x (by simp [hx])) c hc
        simp at hl
        omega

/-- Decoding the encoder's groups recovers the bytes. -/
theorem b64decodeGroups_encode : ∀ n (bs : List ℕ), bs.length ≤ n →
    (∀ x ∈ bs, x < 256) → b64decodeGroups (b64encode bs) = some bs := by
  intro n
  induction n with
  | zero =>
    intro bs hl _
    have hnil : bs = [] := List.length_eq_zero.mp (Nat.le_zero.mp hl)
    subst hnil
    rfl
  | succ m ih =>
    intro bs hl hb
    match bs with
    | [] => rfl
    | [a] =>
      have ha : a < 256 := hb a (by simp)
      have h1 : a / 4 < 64 := by omega
      have h2 : a % 4 * 16 < 64 := by omega
      have e1 : a / 4 * 4 + a % 4 * 16 / 16 = a := by omega
      rw [show b64encode [a] = [b64c (a / 4), b64c (a % 4 * 16), '=', '='] from rfl]
      unfold b64decodeGroups
      simp only [c2b_b64c _ h1, c2b_b64c _ h2, reduceIte, e1, and_self, if_true]
    | [a, b] =>
      have ha : a < 256 := hb a (by simp)
      have hb2 : b < 256 := hb b (by simp)
      have h1 : a / 4 < 64 := by omega
      have h2 : a % 4 * 16 + b / 16 < 64 := by omega
      have h3 : b % 16 * 4 < 64 := by omega
      have e1 : a / 4 * 4 + (a % 4 * 16 + b / 16) / 16 = a := by omega
      have e2 : (a % 4 * 16 + b / 16) % 16 * 16 + b % 16 * 4 / 4 = b := by omega
      rw [show b64encode [a, b] =
        [b64c (a / 4), b64c (a % 4 * 16 + b / 16), b64c (b % 16 * 4), '='] from rfl]
      unfold b64decodeGroups
      simp only [c2b_b64c _ h1, c2b_b64c _ h2, if_neg (b64c_ne_eq _ h3),
        c2b_b64c _ h3, reduceIte, e1, e2]
    | a :: b :: d :: rest =>
      have ha : a < 256 := hb a (by simp)
      have hb2 : b < 256 := hb b (by simp)
      have hd : d < 256 := hb d (by simp)
      have h1 : a / 4 < 64 := by omega
      have h2 : a % 4 * 16 + b / 16 < 64 := by omega
      have h3 : b % 16 * 4 + d / 64 < 64 := by omega
      have h4 : d % 64 < 64 := by omega
      have e1 : a / 4 * 4 + (a % 4 * 16 + b / 16) / 16 = a := by omega
      have e2 : (a % 4 * 16 + b / 16) % 16 * 16 + (b % 16 * 4 + d / 64) / 4 = b := by omega
      have e3 : (b % 16 * 4 + d / 64) % 4 * 64 + d % 64 = d := by omega
      have hih : b64decodeGroups (b64encode rest) = some rest := by
        refine ih rest ?_ (fun x hx => hb x (by simp [hx]))
        simp at hl
        omega
      rw [show b64encode (a :: b :: d :: rest) =
        b64c (a / 4) :: b64c (a % 4 * 16 + b / 16) :: b64c (b % 16 * 4 + d / 64) ::
          b64c (d % 64) :: b64encode rest from rfl]
      unfold b64decodeGroups
      simp only [c2b_b64c _ h1, c2b_b64c _ h2, if_neg (b64c_ne_eq _ h3),
        c2b_b64c _ h3, if_neg (b64c_ne_eq _ h4), c2b_b64c _ h4, hih, e1, e2, e3]
      rfl

/-- `b64decode(b64encode(bs)) = bs`. -/
theorem b64_roundtrip (bs : List ℕ) (hb : ∀ x ∈ bs, x < 256) :
    b64decode (b64encode bs) = some bs := by
  unfold b64decode b64filter
  rw [List.filter_eq_self.mpr (b64encode_chars bs.length bs le_rfl hb)]
  exact b64decodeGroups_encode bs.length bs le_rfl hb

/-! ### The path geometry extractor (`SVGImage._svg_path_to_contour`)

Document coordinates are exact rationals.  A parsed path is a list of
segments (lines or cubic Béziers, the vocabulary the writer and
annotator produce); `segSample sg t` is `s.poly()(t)` from
svgpathtools, evaluated exactly (for a line the polynomial is
`start + t*(end-start)`, for a cubic the Bernstein form; over ℚ these
evaluate exactly, so `poly(0)`/`poly(1)` are exactly the endpoints,
whereas CPython floats incur the ~1e-16 error the source comments
mention). -/

/-- A 2-D document-space point. -/
abbrev Q2 := ℚ × ℚ

/-- A path segment. -/
inductive Seg where
  | line (s e : Q2)
  | cubic (s c1 c2 e : Q2)
deriving DecidableEq, Repr

/-- Segment start point. -/
def Seg.startPt : Seg → Q2
  | .line s _ => s
  | .cubic s _ _ _ => s

/-- Segment end point. -/
def Seg.endPt : Seg → Q2
  | .line _ e => e
  | .cubic _ _ _ e => e

/-- `s.poly()(t)`: exact polynomial sample of a segment. -/
def segSample (sg : Seg) (t : ℚ) : Q2 :=
  match sg with
  | .line s e => (s.1 + t * (e.1 - s.1), s.2 + t * (e.2 - s.2))
  | .cubic s c1 c2 e =>
    ((1 - t) ^ 3 * s.1 + 3 * (1 - t) ^ 2 * t * c1.1 + 3 * (1 - t) * t ^ 2 * c2.1 + t ^ 3 * e.1,
     (1 - t) ^ 3 * s.2 + 3 * (1 - t) ^ 2 * t * c1.2 + 3 * (1 - t) * t ^ 2 * c2.2 + t ^ 3 * e.2)

theorem segSample_zero (sg : Seg) : segSample sg 0 = sg.startPt := by
  cases sg <;> simp [segSample, Seg.startPt]

theorem segSample_one (sg : Seg) : segSample sg 1 = sg.endPt := by
  cases sg with
  | line s e => simp [segSample, Seg.endPt]
  | cubic s c1 c2 e =>
    obtain ⟨ex, ey⟩ := e
    simp only [segSample, Seg.endPt]
    rw [Prod.mk.injEq]
    constructor <;> ring

/-- `numpy.round`: round half to even. -/
def roundHE (q : ℚ) : ℤ :=
  let f := ⌊q⌋
  let r := q - f
  if r < 1 / 2 then f
  else if 1 / 2 < r then f + 1
  else if f % 2 = 0 then f else f + 1

theorem roundHE_int (z : ℤ) : roundHE (z : ℚ) = z := by
  unfold roundHE
  rw [Int.floor_intCast]
  simp

example : roundHE (5 / 2 : ℚ) = 2 := by norm_num [roundHE]
example : roundHE (7 / 2 : ℚ) = 4 := by norm_num [roundHE]
example : roundHE (49 / 10 : ℚ) = 5 := by norm_num [roundHE]

/-- Path-data commands (the `d` attribute, tokenised): the vocabulary
the writer emits and the extractor consumes. -/
inductive DCmd where
  | M (p : Q2)
  | L (p : Q2)
  | C (c1 c2 p : Q2)
  | Z
deriving DecidableEq, Repr

/-- `svgpathtools.parse_path` on the modelled command vocabulary:
`M` moves the pen and starts a sub-path, `L`/`C` draw from the current
position, `Z` draws a closing line back to the sub-path start (modelled
unconditionally, as svgpathtools emits the closing `Line`). -/
def parse_path_go : List DCmd → Q2 → Q2 → List Seg
  | [], _, _ => []
  | cmd :: rest, cur, start =>
    match cmd with
    | .M p => parse_path_go rest p p
    | .L p => .line cur p :: parse_path_go rest p start
    | .C c1 c2 p => .cubic cur c1 c2 p :: parse_path_go rest p start
    | .Z => .line cur start :: parse_path_go rest start start

/-- Parse a command list into segments. -/
def parse_path (cmds : List DCmd) : List Seg := parse_path_go cmds (0, 0) (0, 0)

/-- The sub-path split (image.py lines 469-475): a new sub-path starts
whenever a segment's start is not exactly the previous segment's end
(the initial `last_end = None` always differs). -/
def subPathsGo : List Seg → Q2 → List Seg → List (List Seg)
  | [], _, cur => [cur]
  | sg :: rest, lastEnd, cur =>
    if sg.startPt = lastEnd then subPathsGo rest sg.endPt (cur ++ [sg])
    else cur :: subPathsGo rest sg.endPt [sg]

/-- Split a segment list into sub-paths. -/
def subPaths : List Seg → List (List Seg)
  | [] => []
  | sg :: rest => subPathsGo rest sg.endPt [sg]

/-- ℓ1 distance, standing in for the complex modulus `np.abs`: the sum
of Euclidean moduli in the source is irrational in general; within an
exactly-chained sub-path every junction deviation is exactly zero, so
any norm gives the same comparison against the 1e-3 tolerance. -/
def l1dist (p q : Q2) : ℚ := |p.1 - q.1| + |p.2 - q.2|

/-- `np.sum(np.abs(starts - ends))` over the junctions of a sub-path:
segment `i`'s sample at `t = 1` against segment `i+1`'s sample at
`t = 0` (image.py lines 479-485). -/
def gapSum : List Seg → ℚ
  | [] => 0
  | [_] => 0
  | a :: b :: rest => l1dist (segSample a 1) (segSample b 0) + gapSum (b :: rest)

/-- Scale division and rounding of one sampled point (line 490): the
real part is divided by `scale[0]` (the *height* ratio) and the
imaginary part by `scale[1]` (the *width* ratio), then rounded. -/
def pixelOf (p : Q2) (scale : Q2) : ℤ × ℤ :=
  (roundHE (p.1 / scale.1), roundHE (p.2 / scale.2))

/-- An integer contour. -/
abbrev Contour := List (ℤ × ℤ)

/-- The contour of one sub-path: the `t = 0` sample (the start anchor)
of every segment, scaled and rounded. -/
def ctrOf (sp : List Seg) (scale : Q2) : Contour :=
  sp.map (fun sg => pixelOf (segSample sg 0) scale)

/-- Degenerate-contour warning (the source interpolates the point count
and path attributes into the message; the model keeps it constant). -/
def polyWarn : String := "polygon with only %i points in %s: %s"

/-- The per-sub-path loop of `_svg_path_to_contour` (lines 477-498):
raise on a junction-deviation sum above 1e-3, keep contours with more
than two points, drop the rest with a warning. -/
def sptcGo : List (List Seg) → Q2 → Except PyErr (List Contour × List String)
  | [], _ => .ok ([], [])
  | sp :: rest, scale =>
    if gapSum sp > 1 / 1000 then .error .svgInterrupted
    else
      match sptcGo rest scale with
      | .error e => .error e
      | .ok (cs, ws) =>
        let ctr := ctrOf sp scale
        if 2 < ctr.length then .ok (ctr :: cs, ws) else .ok (cs, polyWarn :: ws)

/-- `SVGImage._svg_path_to_contour` for an already-parsed path. -/
def svg_path_to_contour (segs : List Seg) (scale : Q2) :
    Except PyErr (List Contour × List String) :=
  sptcGo (subPaths segs) scale

/-! ### Characterisation of the extractor -/

/-- Adjacent segments of a sub-path chain exactly. -/
def chainedB : List Seg → Bool
  | [] => true
  | [_] => true
  | a :: b :: rest => decide (b.startPt = a.endPt) && chainedB (b :: rest)

theorem chainedB_append_last : ∀ (xs : List Seg) (sg : Seg) (x : Seg),
    chainedB xs = true → xs.getLast? = some x → sg.startPt = x.endPt →
    chainedB (xs ++ [sg]) = true := by
  intro xs
  induction xs with
  | nil => intro sg x _ hl _; simp at hl
  | cons a tail ih =>
    intro sg x hc hl hs
    cases tail with
    | nil =>
      simp at hl
      subst hl
      show chainedB [a, sg] = true
      simp [chainedB, hs]
    | cons b rest =>
      rw [show chainedB (a :: b :: rest) =
        (decide (b.startPt = a.endPt) && chainedB (b :: rest)) from rfl,
        Bool.and_eq_true] at hc
      have hl2 : (b :: rest).getLast? = some x := by
        rw [List.getLast?_cons_cons] at hl
        exact hl
      have := ih sg x hc.2 hl2 hs
      show chainedB (a :: ((b :: rest) ++ [sg])) = true
      rw [show ((b :: rest) ++ [sg] : List Seg) = b :: (rest ++ [sg]) from rfl]
      rw [show chainedB (a :: b :: (rest ++ [sg])) =
        (decide (b.startPt = a.endPt) && chainedB (b :: (rest ++ [sg]))) from rfl]
      rw [Bool.and_eq_true]
      exact ⟨hc.1, this⟩

theorem subPathsGo_chained : ∀ (rest : List Seg) (lastEnd : Q2) (cur : List Seg),
    chainedB cur = true → (cur.getLast?).map Seg.endPt = some lastEnd →
    ∀ sp ∈ subPathsGo rest lastEnd cur, chainedB sp = true := by
  intro rest
  induction rest with
  | nil =>
    intro lastEnd cur hc _ sp hsp
    rw [show subPathsGo [] lastEnd cur = [cur] from rfl] at hsp
    simp at hsp
    subst hsp
    exact hc
  | cons sg rest ih =>
    intro lastEnd cur hc hl sp hsp
    rw [show subPathsGo (sg :: rest) lastEnd cur =
      (if sg.startPt = lastEnd then subPathsGo rest sg.endPt (cur ++ [sg])
       else cur :: subPathsGo rest sg.endPt [sg]) from rfl] at hsp
    by_cases heq : sg.startPt = lastEnd
    · rw [if_pos heq] at hsp
      obtain ⟨x, hx, hxe⟩ : ∃ x, cur.getLast? = some x ∧ x.endPt = lastEnd := by
        cases hcl : cur.getLast? with
        | none => rw [hcl] at hl; simp at hl
        | some y => rw [hcl] at hl; simp at hl; exact ⟨y, rfl, hl⟩
      refine ih sg.endPt (cur ++ [sg])
        (chainedB_append_last cur sg x hc hx (heq.trans hxe.symm)) ?_ sp hsp
      rw [List.getLast?_concat]
      rfl
    · rw [if_neg heq] at hsp
      rcases List.mem_cons.mp hsp with rfl | h2
      · exact hc
      · exact ih sg.endPt [sg] rfl rfl sp h2

/-- Every sub-path the splitter produces is exactly chained. -/
theorem subPaths_chained (segs : List Seg) : ∀ sp ∈ subPaths segs, chainedB sp = true := by
  cases segs with
  | nil => intro sp hsp; simp [subPaths] at hsp
  | cons sg rest =>
    intro sp hsp
    exact subPathsGo_chained rest sg.endPt [sg] rfl rfl sp hsp

/-- Within an exactly-chained sub-path the junction-deviation sum is
exactly zero: in exact arithmetic the `> 1e-3` discontinuity branch is
unreachable. -/
theorem gapSum_chained : ∀ sp, chainedB sp = true → gapSum sp = 0 := by
  intro sp
  induction sp with
  | nil => intro _; rfl
  | cons a tail ih =>
    intro hc
    cases tail with
    | nil => rfl
    | cons b rest =>
      rw [show chainedB (a :: b :: rest) =
        (decide (b.startPt = a.endPt) && chainedB (b :: rest)) from rfl,
        Bool.and_eq_true, decide_eq_true_eq] at hc
      rw [show gapSum (a :: b :: rest) =
        l1dist (segSample a 1) (segSample b 0) + gapSum (b :: rest) from rfl]
      rw [segSample_one, segSample_zero, hc.1, ih hc.2]
      unfold l1dist
      simp

/-- Contours the loop keeps. -/
def keptContours (sps : List (List Seg)) (scale : Q2) : List Contour :=
  (sps.map (fun sp => ctrOf sp scale)).filter (fun c => decide (2 < c.length))

/-- One warning per dropped (≤ 2 point) contour. -/
def droppedWarns (sps : List (List Seg)) (scale : Q2) : List String :=
  ((sps.map (fun sp => ctrOf sp scale)).filter
    (fun c => decide (¬ 2 < c.length))).map (fun _ => polyWarn)

theorem sptcGo_char : ∀ (sps : List (List Seg)) (scale : Q2),
    (∀ sp ∈ sps, chainedB sp = true) →
    sptcGo sps scale = .ok (keptContours sps scale, droppedWarns sps scale) := by
  intro sps
  induction sps with
  | nil => intro scale _; rfl
  | cons sp rest ih =>
    intro scale hc
    have hz : gapSum sp = 0 := gapSum_chained sp (hc sp (by simp))
    have hrest := ih scale (fun s hs => hc s (by simp [hs]))
    rw [show sptcGo (sp :: rest) scale =
      (if gapSum sp > 1 / 1000 then .error .svgInterrupted
       else
        match sptcGo rest scale with
        | .error e => .error e
        | .ok (cs, ws) =>
          let ctr := ctrOf sp scale
          if 2 < ctr.length then .ok (ctr :: cs, ws) else .ok (cs, polyWarn :: ws)) from rfl]
    rw [hz, if_neg (by norm_num), hrest]
    by_cases h2 : 2 < (ctrOf sp scale).length
    · simp only [if_pos h2]
      unfold keptContours droppedWarns
      simp [List.filter_cons, h2]
    · simp only [if_neg h2]
      unfold keptContours droppedWarns
      have h2' : List.length (ctrOf sp scale) ≤ 2 := by omega
      simp [List.filter_cons, h2, h2', List.replicate_succ]

/-- `_svg_path_to_contour` never raises in exact arithmetic: it returns
exactly the >2-point sub-path contours and one warning per dropped
sub-path. -/
theorem svg_path_to_contour_char (segs : List Seg) (scale : Q2) :
    svg_path_to_contour segs scale =
      .ok (keptContours (subPaths segs) scale, droppedWarns (subPaths segs) scale) :=
  sptcGo_char (subPaths segs) scale (subPaths_chained segs)

/-- `self._scale_in_svg = np.array(svg_im_shape) / np.array(jpg_im_shape[0:2])`
with `svg_im_shape = (int(im_h), int(im_w))` (image.py lines 430-432). -/
def scaleOf (svgShape : ℤ × ℤ) (jpgShape : ℕ × ℕ) : Q2 :=
  ((svgShape.1 : ℚ) / jpgShape.1, (svgShape.2 : ℚ) / jpgShape.2)

/-- C9: decoding never raises for degenerate sub-paths; each sub-path
whose contour has 2 or fewer points is dropped from the returned list
with one warning, and every sub-path with 3 or more points is kept (in
order). -/
theorem C9_degenerate_dropped (segs : List Seg) (scale : Q2) :
    ∃ cs ws, svg_path_to_contour segs scale = .ok (cs, ws) ∧
      cs = ((subPaths segs).map (fun sp => ctrOf sp scale)).filter
        (fun c => decide (2 < c.length)) ∧
      ws.length = (((subPaths segs).map (fun sp => ctrOf sp scale)).filter
        (fun c => decide (¬ 2 < c.length))).length := by
  refine ⟨_, _, svg_path_to_contour_char segs scale, rfl, ?_⟩
  unfold droppedWarns
  rw [List.length_map]

/-- Path with an exact junction gap far above 1e-3 (two triangles drawn
in one path string). -/
def c3BigGap : List DCmd :=
  [DCmd.M (0, 0), DCmd.L (4, 0), DCmd.L (4, 4), DCmd.Z,
   DCmd.M (10, 10), DCmd.L (14, 10), DCmd.L (14, 14), DCmd.Z]

/-- Path with a junction gap of exactly 1e-6. -/
def c3TinyGap : List DCmd :=
  [DCmd.M (0, 0), DCmd.L (4, 0), DCmd.L (4, 4),
   DCmd.M (4, 4 + 1 / 1000000), DCmd.L (0, 4), DCmd.L (0, 0)]

/-- C3 counterexample: a gap of 10+ document units between consecutive
segments does not raise the discontinuous-path FormatError — the path is
split into two sub-paths and decodes to two contours; and a 1e-6 gap
also splits (two sub-paths, here both degenerate and dropped), rather
than continuing a single sub-path. -/
theorem C3_counterexample :
    svg_path_to_contour (parse_path c3BigGap) (1, 1) =
      .ok ([[(0, 0), (4, 0), (4, 4)], [(10, 10), (14, 10), (14, 14)]], [])
    ∧ svg_path_to_contour (parse_path c3TinyGap) (1, 1) =
      .ok ([], [polyWarn, polyWarn])
    ∧ (subPaths (parse_path c3TinyGap)).length = 2 := by
  refine ⟨?_, ?_, ?_⟩
  · norm_num [svg_path_to_contour, parse_path, parse_path_go, subPaths, subPathsGo,
      sptcGo, gapSum, l1dist, segSample, ctrOf, pixelOf, roundHE, Seg.startPt,
      Seg.endPt, c3BigGap, Prod.ext_iff]
  · norm_num [svg_path_to_contour, parse_path, parse_path_go, subPaths, subPathsGo,
      sptcGo, gapSum, l1dist, segSample, ctrOf, pixelOf, roundHE, Seg.startPt,
      Seg.endPt, c3TinyGap, Prod.ext_iff]
  · norm_num [parse_path, parse_path_go, subPaths, subPathsGo, Seg.startPt,
      Seg.endPt, c3TinyGap, Prod.ext_iff]

/-- C3 (amended): in exact arithmetic the extractor never fails with the
discontinuous-path error — consecutive segments with mismatched
endpoints (by any amount) start a new sub-path instead, and the 1e-3
check only ever sees the zero junction deviation of exactly-chained
sub-paths. -/
theorem C3_no_discontinuity_error (segs : List Seg) (scale : Q2) :
    (svg_path_to_contour segs scale).isOk = true := by
  rw [svg_path_to_contour_char]
  rfl

/-- C2: with declared size exactly twice the true pixel size on both
axes the computed scale is (2, 2), each sampled coordinate is divided
component-wise by the per-axis ratio before rounding, and a path whose
anchors are (4,4), (8,4), (8,8) decodes to the pixel contour
(2,2), (4,2), (4,4) — in particular anchor (4,4) becomes (2,2). -/
theorem C2_scale_correction (ht wt : ℕ) (hht : 0 < ht) (hwt : 0 < wt) :
    scaleOf ((2 * ht : ℤ), (2 * wt : ℤ)) (ht, wt) = (2, 2)
    ∧ (∀ x y sh sw : ℚ, pixelOf (x, y) (sh, sw) = (roundHE (x / sh), roundHE (y / sw)))
    ∧ svg_path_to_contour
        (parse_path [DCmd.M (4, 4), DCmd.L (8, 4), DCmd.L (8, 8), DCmd.Z]) (2, 2) =
      .ok ([[(2, 2), (4, 2), (4, 4)]], []) := by
  refine ⟨?_, fun x y sh sw => rfl, ?_⟩
  · unfold scaleOf
    have h1 : (ht : ℚ) ≠ 0 := Nat.cast_ne_zero.mpr (by omega)
    have h2 : (wt : ℚ) ≠ 0 := Nat.cast_ne_zero.mpr (by omega)
    rw [Prod.mk.injEq]
    constructor <;> (push_cast; field_simp)
  · norm_num [svg_path_to_contour, parse_path, parse_path_go, subPaths, subPathsGo,
      sptcGo, gapSum, l1dist, segSample, ctrOf, pixelOf, roundHE, Seg.startPt,
      Seg.endPt, Prod.ext_iff]

/-- C2 witness at true size 3 × 5. -/
theorem C2_scale_correction_witness :
    scaleOf ((6 : ℤ), (10 : ℤ)) (3, 5) = (2, 2)
    ∧ svg_path_to_contour
        (parse_path [DCmd.M (4, 4), DCmd.L (8, 4), DCmd.L (8, 8), DCmd.Z]) (2, 2) =
      .ok ([[(2, 2), (4, 2), (4, 4)]], []) := by
  have h := C2_scale_correction 3 5 (by decide) (by decide)
  exact ⟨h.1, h.2.2⟩

/-! ### The container document model and `SVGImage` decoding

The document is modelled structurally at the level `ElementTree`
delivers it: the `findall` results for image, legacy `sticky` and path
elements, with each relevant attribute an optional string.  (XML
serialisation itself — escaping, well-formedness — is outside the
model.) -/

/-- The single raster (`<image>`) element's attributes. -/
structure ImgElem where
  wAttr : Option Str
  hAttr : Option Str
  widthAttr : Option Str
  heightAttr : Option Str
  descAttr : Option Str
  hrefAttr : Option Str
deriving DecidableEq, Repr

/-- A legacy `<sticky>` element. -/
structure StickyElem where
  metadataAttr : Option Str
deriving DecidableEq, Repr

/-- A `<path>` element: its `style` attribute and its tokenised `d`
attribute. -/
structure PathElem where
  style : Str
  d : List DCmd
deriving DecidableEq, Repr

/-- A container document as the decoder sees it. -/
structure SvgDoc where
  images : List ImgElem
  sticky : List StickyElem
  paths : List PathElem
deriving DecidableEq, Repr

/-- Declared-dimension extraction (image.py lines 415-430), including
the slip on line 425: the height fallback tests `'width' in attrs` but
then reads `attrib['height']`, so a present-width/absent-height element
raises `KeyError('height')`, and a present-height element without
`width` raises the missing-height Exception.  The strings then go
through `int()`; failure there is an uncaught `ValueError`. -/
def parse_dims (e : ImgElem) : Except PyErr (ℤ × ℤ) :=
  match (match e.wAttr with
         | some s => Except.ok s
         | Option.none =>
           match e.widthAttr with
           | some s => Except.ok s
           | Option.none =>
             Except.error (PyErr.exc "Embedded image %s does not have width")) with
  | .error er => .error er
  | .ok imW =>
    match (match e.hAttr with
           | some s => Except.ok s
           | Option.none =>
             if e.widthAttr.isSome then
               match e.heightAttr with
               | some s => Except.ok s
               | Option.none => Except.error (PyErr.keyError "height")
             else Except.error (PyErr.exc "Embedded image %s does not have height")) with
    | .error er => .error er
    | .ok imH =>
      match pyIntDec imH with
      | Option.none => .error PyErr.valueError
      | some h =>
        match pyIntDec imW with
        | Option.none => .error PyErr.valueError
        | some w => .ok (h, w)

/-- The metadata-string lookup (lines 434-448): a present-but-empty
`desc` raises a plain Exception (which the surrounding `except
KeyError` does *not* catch); an absent `desc` falls back to a single
`sticky` element's `metadata` attribute; if that lookup fails in any
way the metadata is left empty with a warning. -/
def parse_meta_string (e : ImgElem) (doc : SvgDoc) :
    Except PyErr (Option Str × List String) :=
  match e.descAttr with
  | some s =>
    if s = [] then .error (.exc "Empty desc field") else .ok (some s, [])
  | Option.none =>
    let w1 := "Cannot find a desc attribute in image. Maybe a legacy SVG"
    match doc.sticky with
    | [st] =>
      match st.metadataAttr with
      | some s => .ok (some s, [w1])
      | Option.none => .ok (Option.none, [w1, "No metadata in %s"])
    | _ => .ok (Option.none, [w1, "No metadata in %s"])

/-- What `_parse_metadata` produces: the svg-to-pixel scale, the
metadata value, and the warnings logged along the way. -/
structure MetaOut where
  scale : Q2
  metadata : Value
  warnings : List String
deriving DecidableEq, Repr

/-- `SVGImage._parse_metadata` (lines 408-458).  `jpgShape` is the
shape of the bitmap decoded from the embedded payload
(`self._get_array().shape[0:2]`), passed in because image decoding
itself (cv2) is outside the model.  A metadata string rejected by
`literal_eval` is modelled as the caught-`ValueError` branch: the
metadata stays `None` and the final `self._metadata['Make']` check
raises `TypeError`.  A parsed non-dict raises `TypeError` the same
way; a parsed dict without `'Make'` raises `KeyError('Make')`. -/
def parse_metadata (doc : SvgDoc) (jpgShape : ℕ × ℕ) : Except PyErr MetaOut :=
  match doc.images with
  | [e] =>
    match parse_dims e with
    | .error er => .error er
    | .ok dims =>
      let scale := scaleOf dims jpgShape
      match parse_meta_string e doc with
      | .error er => .error er
      | .ok (Option.none, ws) => .ok ⟨scale, Value.dnil, ws⟩
      | .ok (some s, ws) =>
        match pyLitEval s with
        | Option.none => .error .typeError
        | some v =>
          if v.isDictV then
            match dictGet v "Make".data with
            | Option.none => .error (.keyError "Make")
            | some mv =>
              if mv.isDictV then .ok ⟨scale, v, ws⟩
              else .ok ⟨scale, v, ws ++ ["Missing custom metadata in %s, Make is %s"]⟩
          else .error .typeError
  | _ => .error (.exc "Cannot extract image from %s")

/-- `_style_to_dic` (lines 388-394): split the style on `;`, then each
field on `:` into exactly two parts (otherwise the tuple unpacking
raises `ValueError`).  Fields are kept as an association list in
order; the writer never emits duplicate keys. -/
def styleGo : List Str → Except PyErr (List (Str × Str))
  | [] => .ok []
  | s :: rest =>
    match splitChar ':' s with
    | [k, v] =>
      match styleGo rest with
      | .ok d => .ok ((k, v) :: d)
      | .error er => .error er
    | _ => .error .valueError

/-- Style attribute → key/value list. -/
def style_to_dic (style : Str) : Except PyErr (List (Str × Str)) :=
  styleGo (splitChar ';' style)

/-- First-match association lookup. -/
def lookupStr : List (Str × Str) → Str → Option Str
  | [], _ => Option.none
  | (k, v) :: rest, key => if k = key then some v else lookupStr rest key

/-- One decoded annotation: an integer contour and its stroke colour. -/
structure Annot where
  contour : Contour
  color : Str
deriving DecidableEq, Repr

/-- The loop of `_parse_annotations` (lines 396-406): per path element,
parse the style, extract the contours, and wrap each surviving contour
with the element's stroke colour (`style['stroke']` is only read when
at least one contour survived, so a missing stroke on a contour-less
path is not an error). -/
def parse_annots_go : List PathElem → Q2 → Except PyErr (List Annot × List String)
  | [], _ => .ok ([], [])
  | p :: rest, scale =>
    match style_to_dic p.style with
    | .error er => .error er
    | .ok style =>
      match svg_path_to_contour (parse_path p.d) scale with
      | .error er => .error er
      | .ok (cs, ws) =>
        match (match lookupStr style "stroke".data with
               | some col => Except.ok (cs.map (fun c => Annot.mk c col))
               | Option.none =>
                 if cs = [] then Except.ok ([] : List Annot)
                 else Except.error (PyErr.keyError "stroke")) with
        | .error er => .error er
        | .ok annots =>
          match parse_annots_go rest scale with
          | .error er => .error er
          | .ok (as2, ws2) => .ok (annots ++ as2, ws ++ ws2)

/-- `SVGImage._parse_annotations`. -/
def parse_annotations (doc : SvgDoc) (scale : Q2) :
    Except PyErr (List Annot × List String) :=
  parse_annots_go doc.paths scale

/-- `str.strip('"\'')`: strip quote characters from both ends. -/
def stripQuotes (s : Str) : Str :=
  ((s.dropWhile (fun c => c = dquote || c = squote)).reverse.dropWhile
    (fun c => c = dquote || c = squote)).reverse

/-- `SVGImage.extract_jpeg(as_buffer=True)` (lines 509-527): take the
single image element's `xlink:href`, split on `,`, take part 1, strip
quotes, base64-decode. -/
def extract_jpeg (doc : SvgDoc) : Except PyErr (List ℕ) :=
  match doc.images with
  | [e] =>
    match e.hrefAttr with
    | Option.none => .error (.keyError "xlink:href")
    | some href =>
      match (splitChar ',' href).get? 1 with
      | Option.none => .error .indexError
      | some part =>
        match b64decode (stripQuotes part) with
        | some bytes => .ok bytes
        | Option.none => .error .valueError
  | _ => .error (.exc "Cannot extract image from %s")

/-- The decoding performed by `SVGImage.__init__` (lines 371-377):
parse the metadata (establishing the scale), then the annotations. -/
structure SVGInit where
  meta : MetaOut
  annots : List Annot
  annotWarns : List String
deriving DecidableEq, Repr

/-- Decode a container document. -/
def svgimage_init (doc : SvgDoc) (jpgShape : ℕ × ℕ) : Except PyErr SVGInit :=
  match parse_metadata doc jpgShape with
  | .error er => .error er
  | .ok m =>
    match parse_annotations doc m.scale with
    | .error er => .error er
    | .ok (annots, ws) => .ok ⟨m, annots, ws⟩

/-- C8 (code bug): an image element that declares `width="100"` but no
height fails with `KeyError('height')` (from the `attrib['height']`
lookup guarded by the wrong `'width' in attrs` test), not with the
FormatError reporting the missing dimension; and an element declaring
`w` and `height` (but no `width`) raises the missing-height Exception
even though a height is present.  An element lacking any width does
produce the intended missing-width Exception. -/
theorem C8_missing_dims_eval :
    parse_dims ⟨Option.none, Option.none, some "100".data, Option.none,
        Option.none, Option.none⟩ = .error (.keyError "height")
    ∧ parse_dims ⟨some "100".data, Option.none, Option.none, some "100".data,
        Option.none, Option.none⟩ =
      .error (.exc "Embedded image %s does not have height")
    ∧ parse_dims ⟨Option.none, Option.none, Option.none, Option.none,
        Option.none, Option.none⟩ =
      .error (.exc "Embedded image %s does not have width") := by
  refine ⟨by decide, by decide, by decide⟩

/-- C6 counterexample document: well-formed dimensions but an *empty*
`desc` attribute. -/
def c6EmptyDescDoc : SvgDoc :=
  ⟨[⟨Option.none, Option.none, some "4".data, some "4".data, some [], Option.none⟩],
   [], []⟩

/-- C6 counterexample: an empty description attribute is a hard
failure — the `raise Exception('Empty desc field')` escapes the
`except KeyError` handler — instead of decoding to the empty map with
a warning. -/
theorem C6_counterexample :
    parse_metadata c6EmptyDescDoc (2, 2) = .error (.exc "Empty desc field") := by
  decide

/-- The legacy fallback lookup outcome: `none` when there is not
exactly one sticky element or it lacks the attribute. -/
def stickyLookup (doc : SvgDoc) : Option Str :=
  match doc.sticky with
  | [st] => st.metadataAttr
  | _ => Option.none

/-- C6 (amended): when the description attribute is *absent* (not
empty) and the legacy sticky lookup also yields nothing, metadata
decoding does not fail: it returns the empty map together with at
least one warning. -/
theorem C6_absent_desc_fallback (doc : SvgDoc) (jsh : ℕ × ℕ) (e : ImgElem)
    (dims : ℤ × ℤ) (h1 : doc.images = [e]) (h2 : parse_dims e = .ok dims)
    (h3 : e.descAttr = Option.none) (h4 : stickyLookup doc = Option.none) :
    ∃ ws, parse_metadata doc jsh = .ok ⟨scaleOf dims jsh, Value.dnil, ws⟩ ∧ ws ≠ [] := by
  have hms : ∃ ws, parse_meta_string e doc = .ok (Option.none, ws) ∧ ws ≠ [] := by
    unfold parse_meta_string
    rw [h3]
    unfold stickyLookup at h4
    match hst : doc.sticky with
    | [st] =>
      rw [hst] at h4
      simp at h4
      simp only [h4]
      exact ⟨_, rfl, by simp⟩
    | [] => exact ⟨_, rfl, by simp⟩
    | st1 :: st2 :: rest => exact ⟨_, rfl, by simp⟩
  obtain ⟨ws, hws, hne⟩ := hms
  refine ⟨ws, ?_, hne⟩
  unfold parse_metadata
  simp only [h1, h2, hws]

/-- C6 witness document: absent desc, no sticky element. -/
def c6NoDescDoc : SvgDoc :=
  ⟨[⟨Option.none, Option.none, some "4".data, some "4".data, Option.none,
     Option.none⟩], [], []⟩

/-- C6 witness: the amended theorem applied to a concrete document. -/
theorem C6_absent_desc_fallback_witness :
    ∃ ws, parse_metadata c6NoDescDoc (2, 2) =
      .ok ⟨scaleOf (4, 4) (2, 2), Value.dnil, ws⟩ ∧ ws ≠ [] :=
  C6_absent_desc_fallback c6NoDescDoc (2, 2) _ (4, 4) rfl (by decide) rfl rfl

/-- C10: whenever the metadata string obtained from the description
attribute (or the legacy element) parses to a dict, the decoder
requires the key `'Make'`: if it is absent decoding raises
`KeyError('Make')` instead of returning the map; if it is present the
map is returned unchanged. -/
theorem C10_make_required (doc : SvgDoc) (jsh : ℕ × ℕ) (e : ImgElem)
    (dims : ℤ × ℤ) (s : Str) (ws : List String) (v : Value)
    (h1 : doc.images = [e]) (h2 : parse_dims e = .ok dims)
    (h3 : parse_meta_string e doc = .ok (some s, ws))
    (h4 : pyLitEval s = some v) (h5 : v.isDictV = true) :
    (dictGet v "Make".data = Option.none →
      parse_metadata doc jsh = .error (.keyError "Make"))
    ∧ ∀ mv, dictGet v "Make".data = some mv →
        ∃ ws2, parse_metadata doc jsh = .ok ⟨scaleOf dims jsh, v, ws2⟩ := by
  constructor
  · intro hnone
    unfold parse_metadata
    simp only [h1, h2, h3, h4, if_pos h5, hnone]
  · intro mv hmv
    unfold parse_metadata
    simp only [h1, h2, h3, h4, if_pos h5, hmv]
    by_cases hd : mv.isDictV = true
    · simp only [if_pos hd]; exact ⟨ws, rfl⟩
    · simp only [if_neg hd]; exact ⟨_, rfl⟩

/-- C10 witness document: metadata literal without a `'Make'` key. -/
def c10Doc : SvgDoc :=
  ⟨[⟨Option.none, Option.none, some "4".data, some "4".data,
     some "\x7b'a': 1\x7d".data, Option.none⟩], [], []⟩

/-- C10 witness: decoding the concrete Make-less document raises
`KeyError('Make')`. -/
theorem C10_make_required_witness :
    parse_metadata c10Doc (2, 2) = .error (.keyError "Make") :=
  (C10_make_required c10Doc (2, 2) _ (4, 4) "\x7b'a': 1\x7d".data []
    (Value.dcons "a".data (Value.int 1) Value.dnil) rfl (by decide) (by decide)
    (by decide) (by decide)).1 (by decide)

/-! ### The container writer (`Image.to_svg`), structured view

`to_svg` (image.py lines 296-332) writes, for a source with pixel shape
`(h, w)`, an `<image>` element with `desc="str(self.metadata)"`,
`width="%i" height="%i"` equal to the true pixel dimensions, and an
`xlink:href` data URI holding the base64 of the raw file bytes,
followed by one path element per annotation.  The desc attribute is
written *unescaped* (line 304-305), so its text must survive the XML
attribute scan that `ElementTree.parse` performs before the decoder's
`findall` sees anything: `to_svg_doc` below models exactly that layer
for the desc attribute (the one attribute fed from arbitrary metadata
text), yielding the structured document on success. -/

/-- Modelled from the spec: `Annotation.svg_element` (annotations.py is
not under `src/`).  Spec §4.4: the annotation codec "emits a
stroke-colored path whose `d` reconstructs the polygon as straight
segments (closed or open, matching source polygon semantics), at the
document's declared coordinate scale": a move to the first point,
lines through the remaining points, and a closing `Z`. -/
def svg_element (contour : Contour) (color : Str) : PathElem :=
  { style := "stroke:".data ++ color,
    d := match contour with
         | [] => []
         | p :: rest =>
           DCmd.M ((p.1 : ℚ), (p.2 : ℚ)) ::
             (rest.map (fun q => DCmd.L ((q.1 : ℚ), (q.2 : ℚ))) ++ [DCmd.Z]) }

/-- An in-memory source image: pixel shape, raw file bytes, metadata
and annotations (contour plus stroke colour). -/
structure SrcImage where
  h : ℕ
  w : ℕ
  bytes : List ℕ
  metadata : Value
  annots : List (Contour × Str)
deriving DecidableEq, Repr

/-- The `desc` attribute fragment exactly as `to_svg` writes it
(lines 304-305): `'desc="' + str(self.metadata) + '"'` — the metadata
repr goes into the double-quoted attribute *unescaped*. -/
def descStr (meta : Value) : Str :=
  "desc=".data ++ [dquote] ++ pyRepr meta ++ [dquote]

/-- The opening `<svg ...>` tag written by `to_svg` (lines 312-316). -/
def svgHeader (width height : ℕ) : Str :=
  "<svg width=".data ++ [dquote] ++ natDec width ++ [dquote] ++
    " height=".data ++ [dquote] ++ natDec height ++ [dquote] ++
    " xmlns:xlink=".data ++ [dquote] ++ "http://www.w3.org/1999/xlink".data ++
    [dquote] ++ " xmlns=".data ++ [dquote] ++ "http://www.w3.org/2000/svg".data ++
    [dquote] ++ " >".data

/-- The embedded `<image .../>` element text written by `to_svg`
(lines 318-321): the desc fragment is spliced in via `%s`, followed by
the width/height/anchor attributes and the base64 payload. -/
def imageElem (desc : Str) (width height : ℕ) (enc : Str) : Str :=
  "<image ".data ++ desc ++ " width=".data ++ [dquote] ++ natDec width ++
    [dquote] ++ " height=".data ++ [dquote] ++ natDec height ++ [dquote] ++
    " x=".data ++ [dquote] ++ "0".data ++ [dquote] ++
    " y=".data ++ [dquote] ++ "0".data ++ [dquote] ++
    " xlink:href=".data ++ [dquote] ++ "data:image/jpeg;base64,".data ++ enc ++
    [dquote] ++ "/>".data

/-- Strip an expected literal from the front of a string. -/
def dropLit : Str → Str → Option Str
  | [], s => some s
  | _ :: _, [] => Option.none
  | p :: ps, c :: cs => if p = c then dropLit ps cs else Option.none

/-- expat's scan of a double-quoted attribute value (the XML layer the
decoder's `ElementTree.parse` runs before any attribute is visible):
the value is the characters before the closing `"`; a literal `<` in
an attribute value is always a well-formedness error, and `&` starts
an entity reference — the writer never escapes, so a `&` coming from a
metadata repr is (barring an accidental valid entity spelling, not
modelled — excluded by hypothesis and unused by the counterexample) a
well-formedness error too. -/
def scanAttrValue : Str → Except PyErr (Str × Str)
  | [] => .error (.exc "not well-formed")
  | c :: rest =>
    if c = dquote then .ok ([], rest)
    else if c = '<' then .error (.exc "not well-formed")
    else if c = '&' then .error (.exc "not well-formed")
    else
      match scanAttrValue rest with
      | .ok (v, r) => .ok (c :: v, r)
      | .error e => .error e

/-- ElementTree's recovery of the `desc` attribute from the image-tag
text `to_svg` wrote: the tag must start `<image desc="`, the value is
scanned to its closing quote, and expat requires whitespace after a
closing attribute quote — the writer's ` width` provides it when the
scan consumed the whole repr, while a repr containing `"` closes the
value early and leaves repr text in attribute position (stray
non-space text: a well-formedness error; the continuation after a
space is not re-validated, a corner unreachable under the round-trip
theorem's quote-free hypothesis). -/
def parseDescFromTag (tag : Str) : Except PyErr Str :=
  match dropLit "<image desc=".data tag with
  | Option.none => .error (.exc "no desc")
  | some rest =>
    match rest with
    | [] => .error (.exc "not well-formed")
    | c :: rest2 =>
      if c = dquote then
        match scanAttrValue rest2 with
        | .error e => .error e
        | .ok (v, r) =>
          match r with
          | ' ' :: _ => .ok v
          | _ => .error (.exc "not well-formed")
      else .error (.exc "not well-formed")

/-- The parsed document `to_svg` produces when the XML layer accepts
it: the desc attribute holds the given scanned value. -/
def writtenDoc (src : SrcImage) : SvgDoc :=
  { images := [{ wAttr := Option.none, hAttr := Option.none,
                 widthAttr := some (natDec src.w),
                 heightAttr := some (natDec src.h),
                 descAttr := some (pyRepr src.metadata),
                 hrefAttr := some ("data:image/jpeg;base64,".data ++ b64encode src.bytes) }],
    sticky := [],
    paths := src.annots.map (fun a => svg_element a.1 a.2) }

/-- The document `to_svg` produces (bitmap embedded, metadata
included), as the decoder receives it through `ElementTree.parse`:
the unescaped desc attribute must survive the XML attribute scan —
otherwise the whole load fails before the decoder sees anything.  The
width/height (decimal digits) and href (base64 alphabet) attributes
are attribute-safe by construction; the annotation elements go
through the spec-modelled `svg_element`. -/
def to_svg_doc (src : SrcImage) : Except PyErr SvgDoc :=
  match parseDescFromTag
      (imageElem (descStr src.metadata) src.w src.h (b64encode src.bytes)) with
  | .error e => .error e
  | .ok d =>
    .ok { images := [{ wAttr := Option.none, hAttr := Option.none,
                       widthAttr := some (natDec src.w),
                       heightAttr := some (natDec src.h),
                       descAttr := some d,
                       hrefAttr := some ("data:image/jpeg;base64,".data ++
                         b64encode src.bytes) }],
          sticky := [],
          paths := src.annots.map (fun a => svg_element a.1 a.2) }

/-- Write a source image and decode the result (the full round trip):
XML parse, then metadata and annotation decoding. -/
def loadInit (src : SrcImage) (jpgShape : ℕ × ℕ) : Except PyErr SVGInit :=
  match to_svg_doc src with
  | .error e => .error e
  | .ok doc => svgimage_init doc jpgShape

/-- Modelled from the spec: `utils.md5` (utils.py is not under `src/`)
is a deterministic content hash of the byte payload; only determinism
in the byte content matters for the preservation claims, so any fixed
function of the bytes serves as the model. -/
def md5model (bs : List ℕ) : ℕ := bs.foldl (fun h b => h * 257 + b + 1) 7

/-! Supporting round-trip lemmas for the writer. -/

theorem dropWhile_all_false {p : Char → Bool} :
    ∀ s : Str, (∀ c ∈ s, p c = false) → s.dropWhile p = s := by
  intro s h
  cases s with
  | nil => rfl
  | cons c t =>
    rw [List.dropWhile_cons, h c (by simp)]
    simp

theorem stripWs_id (s : Str) (h : ∀ c ∈ s, pyWs c = false) : stripWs s = s := by
  unfold stripWs
  rw [dropWhile_all_false s h,
    dropWhile_all_false s.reverse (fun c hc => h c (List.mem_reverse.mp hc)),
    List.reverse_reverse]

theorem isDig_not_ws {c : Char} (h : isDig c = true) : pyWs c = false := by
  have hb := isDig_toNat h
  have e1 : (' ' : Char).toNat = 32 := by decide
  have e2 : ('\t' : Char).toNat = 9 := by decide
  have e3 : ('\n' : Char).toNat = 10 := by decide
  have e4 : ('\r' : Char).toNat = 13 := by decide
  have e5 : (Char.ofNat 11).toNat = 11 := by decide
  have e6 : (Char.ofNat 12).toNat = 12 := by decide
  unfold pyWs
  rw [Bool.or_eq_false_iff, Bool.or_eq_false_iff, Bool.or_eq_false_iff,
    Bool.or_eq_false_iff, Bool.or_eq_false_iff]
  refine ⟨⟨⟨⟨⟨?_, ?_⟩, ?_⟩, ?_⟩, ?_⟩, ?_⟩ <;>
    (rw [decide_eq_false_iff_not]; exact ne_of_toNat_ne (by omega))

theorem digitsTail_digits : ∀ (s : Str) (acc : ℕ), s.all isDig = true →
    digitsTail decVal 10 s acc = some (s.foldl (fun a c => a * 10 + dval c) acc) := by
  intro s
  induction s with
  | nil => intro acc _; rfl
  | cons c t ih =>
    intro acc hall
    rw [List.all_cons, Bool.and_eq_true] at hall
    have hc := hall.1
    have hne : c ≠ '_' := by
      rintro rfl
      simp [isDig] at hc
    have hdv : decVal c = some (dval c) := by
      have hb : '0' ≤ c ∧ c ≤ '9' := by
        rw [isDig, Bool.and_eq_true, decide_eq_true_eq, decide_eq_true_eq] at hc
        exact hc
      unfold decVal
      rw [if_pos hb]
      rfl
    conv_lhs => unfold digitsTail
    rw [if_neg hne]
    simp only [hdv]
    rw [ih (acc * 10 + dval c) hall.2]
    rfl

theorem pyIntDec_natDec (n : ℕ) : pyIntDec (natDec n) = some (n : ℤ) := by
  obtain ⟨ha, hne, hv⟩ := natDec_spec n
  have hws : stripWs (natDec n) = natDec n := by
    refine stripWs_id _ (fun c hc => ?_)
    rw [List.all_eq_true] at ha
    exact isDig_not_ws (ha c hc)
  cases hd : natDec n with
  | nil => exact absurd hd hne
  | cons c cs =>
    rw [hd] at ha hv hws
    rw [List.all_cons, Bool.and_eq_true] at ha
    have hcp : c ≠ '+' := by rintro rfl; simp [isDig] at ha
    have hcm : c ≠ '-' := by rintro rfl; simp [isDig] at ha
    have hdv : decVal c = some (dval c) := by
      have hb : '0' ≤ c ∧ c ≤ '9' := by
        have := ha.1
        rw [isDig, Bool.and_eq_true, decide_eq_true_eq, decide_eq_true_eq] at this
        exact this
      unfold decVal
      rw [if_pos hb]
      rfl
    have hfold : digitsVal (c :: cs) =
        List.foldl (fun a c => a * 10 + dval c) (dval c) cs := by
      unfold digitsVal
      rw [List.foldl_cons]
      norm_num
    unfold pyIntDec
    rw [hws]
    simp only [if_neg hcp, if_neg hcm]
    unfold digitRun
    simp only [hdv, digitsTail_digits cs (dval c) ha.2, ← hfold, hv]
    simp

theorem splitChar_no_sep (sep : Char) : ∀ s : Str, (∀ c ∈ s, c ≠ sep) →
    splitChar sep s = [s] := by
  intro s
  induction s with
  | nil => intro _; rfl
  | cons c t ih =>
    intro h
    conv_lhs => unfold splitChar
    simp only [ih (fun x hx => h x (by simp [hx])), if_neg (h c (by simp))]

theorem splitChar_sep_append (sep : Char) : ∀ (a b : Str), (∀ c ∈ a, c ≠ sep) →
    splitChar sep (a ++ sep :: b) = a :: splitChar sep b := by
  intro a
  induction a with
  | nil =>
    intro b _
    show splitChar sep (sep :: b) = [] :: splitChar sep b
    conv_lhs => unfold splitChar
    simp only [if_true, eq_self_iff_true]
  | cons c t ih =>
    intro b h
    show splitChar sep (c :: (t ++ sep :: b)) = (c :: t) :: splitChar sep b
    conv_lhs => unfold splitChar
    simp only [ih b (fun x hx => h x (by simp [hx])), if_neg (h c (by simp))]

/-- The chained segment list the writer's closed polygon parses to. -/
def lineChain (cur : Q2) (ps : List Q2) (p0 : Q2) : List Seg :=
  match ps with
  | [] => [Seg.line cur p0]
  | q :: rest => Seg.line cur q :: lineChain q rest p0

theorem parse_path_go_writer (ps : List Q2) : ∀ (cur p0 : Q2),
    parse_path_go (ps.map DCmd.L ++ [DCmd.Z]) cur p0 = lineChain cur ps p0 := by
  induction ps with
  | nil => intro cur p0; rfl
  | cons q rest ih =>
    intro cur p0
    show parse_path_go (DCmd.L q :: (rest.map DCmd.L ++ [DCmd.Z])) cur p0 = _
    rw [show parse_path_go (DCmd.L q :: (rest.map DCmd.L ++ [DCmd.Z])) cur p0 =
      Seg.line cur q :: parse_path_go (rest.map DCmd.L ++ [DCmd.Z]) q p0 from rfl]
    rw [ih q p0]
    rfl

theorem parse_path_writer (p0 : Q2) (ps : List Q2) :
    parse_path (DCmd.M p0 :: (ps.map DCmd.L ++ [DCmd.Z])) = lineChain p0 ps p0 := by
  unfold parse_path
  rw [show parse_path_go (DCmd.M p0 :: (ps.map DCmd.L ++ [DCmd.Z])) (0, 0) (0, 0) =
    parse_path_go (ps.map DCmd.L ++ [DCmd.Z]) p0 p0 from rfl]
  exact parse_path_go_writer ps p0 p0

/-- Chain check relative to a given previous end point. -/
def consChainFrom (le : Q2) : List Seg → Bool
  | [] => true
  | sg :: rest => decide (sg.startPt = le) && consChainFrom sg.endPt rest

theorem lineChain_chain (ps : List Q2) : ∀ (cur p0 : Q2),
    consChainFrom cur (lineChain cur ps p0) = true := by
  induction ps with
  | nil => intro cur p0; simp [lineChain, consChainFrom, Seg.startPt]
  | cons q rest ih =>
    intro cur p0
    show consChainFrom cur (Seg.line cur q :: lineChain q rest p0) = true
    rw [show consChainFrom cur (Seg.line cur q :: lineChain q rest p0) =
      (decide ((Seg.line cur q).startPt = cur) &&
        consChainFrom (Seg.line cur q).endPt (lineChain q rest p0)) from rfl]
    rw [show (Seg.line cur q).endPt = q from rfl]
    simp [Seg.startPt, ih q p0]

theorem lineChain_starts (ps : List Q2) : ∀ (cur p0 : Q2),
    (lineChain cur ps p0).map Seg.startPt = cur :: ps := by
  induction ps with
  | nil => intro cur p0; rfl
  | cons q rest ih =>
    intro cur p0
    show (Seg.line cur q :: lineChain q rest p0).map Seg.startPt = _
    rw [List.map_cons, ih q p0]
    rfl

theorem subPathsGo_chain : ∀ (rest : List Seg) (le : Q2) (cur : List Seg),
    consChainFrom le rest = true → subPathsGo rest le cur = [cur ++ rest] := by
  intro rest
  induction rest with
  | nil => intro le cur _; simp [subPathsGo]
  | cons sg rest2 ih =>
    intro le cur h
    rw [show consChainFrom le (sg :: rest2) =
      (decide (sg.startPt = le) && consChainFrom sg.endPt rest2) from rfl,
      Bool.and_eq_true, decide_eq_true_eq] at h
    rw [show subPathsGo (sg :: rest2) le cur =
      (if sg.startPt = le then subPathsGo rest2 sg.endPt (cur ++ [sg])
       else cur :: subPathsGo rest2 sg.endPt [sg]) from rfl]
    rw [if_pos h.1, ih sg.endPt (cur ++ [sg]) h.2]
    simp

theorem subPaths_lineChain (cur p0 : Q2) (ps : List Q2) :
    subPaths (lineChain cur ps p0) = [lineChain cur ps p0] := by
  cases ps with
  | nil => rfl
  | cons q rest =>
    show subPaths (Seg.line cur q :: lineChain q rest p0) = _
    rw [show subPaths (Seg.line cur q :: lineChain q rest p0) =
      subPathsGo (lineChain q rest p0) (Seg.line cur q).endPt [Seg.line cur q] from rfl]
    rw [show (Seg.line cur q).endPt = q from rfl]
    rw [subPathsGo_chain (lineChain q rest p0) q [Seg.line cur q] (lineChain_chain rest q p0)]
    rfl

theorem ctrOf_scale_one (sp : List Seg) :
    ctrOf sp (1, 1) = sp.map (fun sg => (roundHE sg.startPt.1, roundHE sg.startPt.2)) := by
  unfold ctrOf pixelOf
  simp [segSample_zero]

/-- Casting an integer contour to document coordinates. -/
def castContour (c : Contour) : List Q2 := c.map (fun p => ((p.1 : ℚ), (p.2 : ℚ)))

theorem castContour_roundtrip (c : Contour) :
    (castContour c).map (fun p => (roundHE p.1, roundHE p.2)) = c := by
  induction c with
  | nil => rfl
  | cons p t ih =>
    show (roundHE (p.1 : ℚ), roundHE (p.2 : ℚ)) :: (castContour t).map _ = p :: t
    rw [ih, roundHE_int, roundHE_int]

theorem c2bAux_isSome_mem (c : Char) : ∀ (l : List Char) (i : ℕ),
    (c2bAux c l i).isSome = true → c ∈ l := by
  intro l
  induction l with
  | nil => intro i h; simp [c2bAux] at h
  | cons d rest ih =>
    intro i h
    rw [show c2bAux c (d :: rest) i =
      (if d = c then some i else c2bAux c rest (i + 1)) from rfl] at h
    by_cases hc : d = c
    · simp [hc]
    · rw [if_neg hc] at h
      exact List.mem_cons_of_mem d (ih (i + 1) h)

theorem b64chars_not_special : ∀ c ∈ b64chars, c ≠ ',' ∧ c ≠ squote ∧ c ≠ dquote := by
  decide

theorem b64encode_not_special (bs : List ℕ) (hb : ∀ x ∈ bs, x < 256) :
    ∀ c ∈ b64encode bs, c ≠ ',' ∧ c ≠ squote ∧ c ≠ dquote := by
  intro c hc
  have h := b64encode_chars bs.length bs le_rfl hb c hc
  rw [Bool.or_eq_true] at h
  rcases h with h | h
  · exact b64chars_not_special c (c2bAux_isSome_mem c b64chars 0 h)
  · rw [decide_eq_true_eq] at h
    subst h
    exact ⟨by decide, by decide, by decide⟩

theorem extract_jpeg_writer (src : SrcImage) (hb : ∀ b ∈ src.bytes, b < 256) :
    extract_jpeg (writtenDoc src) = .ok src.bytes := by
  have hns := b64encode_not_special src.bytes hb
  have hsplit : splitChar ',' ("data:image/jpeg;base64,".data ++ b64encode src.bytes) =
      ["data:image/jpeg;base64".data, b64encode src.bytes] := by
    rw [show "data:image/jpeg;base64,".data ++ b64encode src.bytes =
      "data:image/jpeg;base64".data ++ ',' :: b64encode src.bytes from rfl]
    rw [splitChar_sep_append ',' _ _ (by decide)]
    rw [splitChar_no_sep ',' _ (fun c hc => (hns c hc).1)]
  have hstrip : stripQuotes (b64encode src.bytes) = b64encode src.bytes := by
    unfold stripQuotes
    have hfalse : ∀ c ∈ b64encode src.bytes, (c = dquote || c = squote) = false := by
      intro c hc
      obtain ⟨_, h2, h3⟩ := hns c hc
      simp [h2, h3]
    rw [dropWhile_all_false _ hfalse,
      dropWhile_all_false _ (fun c hc => hfalse c (List.mem_reverse.mp hc)),
      List.reverse_reverse]
  have hdec : b64decode (b64encode src.bytes) = some src.bytes := b64_roundtrip src.bytes hb
  unfold extract_jpeg
  rw [show (writtenDoc src).images = [⟨Option.none, Option.none, some (natDec src.w),
      some (natDec src.h), some (pyRepr src.metadata),
      some ("data:image/jpeg;base64,".data ++ b64encode src.bytes)⟩] from rfl]
  have hget : (["data:image/jpeg;base64".data, b64encode src.bytes] : List Str).get? 1 =
      some (b64encode src.bytes) := rfl
  simp only [hsplit, hget, hstrip, hdec]

theorem style_to_dic_writer (contour : Contour) (color : Str)
    (hcol : ∀ c ∈ color, c ≠ ';' ∧ c ≠ ':') :
    style_to_dic (svg_element contour color).style = .ok [("stroke".data, color)] := by
  rw [show (svg_element contour color).style = "stroke:".data ++ color from rfl]
  have hno : ∀ c ∈ "stroke:".data ++ color, c ≠ ';' := by
    intro c hc
    rcases List.mem_append.mp hc with h | h
    · revert h
      have : ∀ c ∈ "stroke:".data, c ≠ ';' := by decide
      exact this c
    · exact (hcol c h).1
  have hsp : splitChar ':' ("stroke:".data ++ color) = ["stroke".data, color] := by
    rw [show "stroke:".data ++ color = "stroke".data ++ ':' :: color from rfl]
    rw [splitChar_sep_append ':' _ _ (by decide)]
    rw [splitChar_no_sep ':' color (fun c hc => (hcol c hc).2)]
  unfold style_to_dic
  rw [splitChar_no_sep ';' _ hno]
  conv_lhs => unfold styleGo
  simp only [hsp]
  rfl

theorem writer_path_decode (contour : Contour) (h3 : 3 ≤ contour.length) (color : Str) :
    svg_path_to_contour (parse_path (svg_element contour color).d) (1, 1) =
      .ok ([contour], []) := by
  cases contour with
  | nil => simp at h3
  | cons p rest =>
    have hd : (svg_element (p :: rest) color).d =
        DCmd.M ((p.1 : ℚ), (p.2 : ℚ)) :: ((castContour rest).map DCmd.L ++ [DCmd.Z]) := by
      show DCmd.M ((p.1 : ℚ), (p.2 : ℚ)) ::
          (rest.map (fun q => DCmd.L ((q.1 : ℚ), (q.2 : ℚ))) ++ [DCmd.Z]) = _
      rw [castContour, List.map_map]
      rfl
    rw [hd, parse_path_writer ((p.1 : ℚ), (p.2 : ℚ)) (castContour rest),
      svg_path_to_contour_char, subPaths_lineChain]
    have hctr : ctrOf (lineChain ((p.1 : ℚ), (p.2 : ℚ)) (castContour rest)
        ((p.1 : ℚ), (p.2 : ℚ))) (1, 1) = p :: rest := by
      rw [ctrOf_scale_one]
      rw [show (lineChain ((p.1 : ℚ), (p.2 : ℚ)) (castContour rest)
            ((p.1 : ℚ), (p.2 : ℚ))).map
            (fun sg => (roundHE sg.startPt.1, roundHE sg.startPt.2)) =
          ((lineChain ((p.1 : ℚ), (p.2 : ℚ)) (castContour rest)
            ((p.1 : ℚ), (p.2 : ℚ))).map Seg.startPt).map
            (fun q => (roundHE q.1, roundHE q.2)) from by rw [List.map_map]; rfl]
      rw [lineChain_starts]
      exact castContour_roundtrip (p :: rest)
    have hlen : 2 < (p :: rest).length := by
      simp only [List.length_cons] at h3 ⊢
      omega
    have hkept : keptContours [lineChain ((p.1 : ℚ), (p.2 : ℚ)) (castContour rest)
        ((p.1 : ℚ), (p.2 : ℚ))] (1, 1) = [p :: rest] := by
      unfold keptContours
      rw [List.map_cons, List.map_nil, hctr, List.filter_cons]
      rw [if_pos (by rw [decide_eq_true_eq]; exact hlen)]
      rfl
    have hdrop : droppedWarns [lineChain ((p.1 : ℚ), (p.2 : ℚ)) (castContour rest)
        ((p.1 : ℚ), (p.2 : ℚ))] (1, 1) = [] := by
      unfold droppedWarns
      rw [List.map_cons, List.map_nil, hctr, List.filter_cons]
      rw [if_neg (by simp only [decide_eq_true_eq, not_not]; exact hlen)]
      rfl
    rw [hkept, hdrop]

theorem parse_annots_writer : ∀ (annots : List (Contour × Str)),
    (∀ a ∈ annots, 3 ≤ a.1.length ∧ ∀ c ∈ a.2, c ≠ ';' ∧ c ≠ ':') →
    parse_annots_go (annots.map (fun a => svg_element a.1 a.2)) (1, 1) =
      .ok (annots.map (fun a => Annot.mk a.1 a.2), []) := by
  intro annots
  induction annots with
  | nil => intro _; rfl
  | cons a rest ih =>
    intro h
    obtain ⟨h3, hcol⟩ := h a (by simp)
    have hstyle := style_to_dic_writer a.1 a.2 hcol
    have hpath := writer_path_decode a.1 h3 a.2
    have hrest := ih (fun x hx => h x (by simp [hx]))
    rw [List.map_cons]
    conv_lhs => unfold parse_annots_go
    simp only [hstyle, hpath, hrest]
    rw [show lookupStr [("stroke".data, a.2)] "stroke".data = some a.2 from rfl]
    simp

theorem parse_metadata_writer (src : SrcImage)
    (hok : valOk src.metadata = true)
    (hdict : src.metadata.isDictV = true)
    (mv : Value) (hmake : dictGet src.metadata "Make".data = some mv)
    (hh : 0 < src.h) (hw : 0 < src.w) :
    parse_metadata (writtenDoc src) (src.h, src.w) =
      .ok ⟨(1, 1), src.metadata,
        if mv.isDictV then []
        else ["Missing custom metadata in %s, Make is %s"]⟩ := by
  have hdims : parse_dims ⟨Option.none, Option.none, some (natDec src.w),
      some (natDec src.h), some (pyRepr src.metadata),
      some ("data:image/jpeg;base64,".data ++ b64encode src.bytes)⟩ =
      .ok ((src.h : ℤ), (src.w : ℤ)) := by
    unfold parse_dims
    simp [pyIntDec_natDec]
  have hscale : scaleOf ((src.h : ℤ), (src.w : ℤ)) (src.h, src.w) = (1, 1) := by
    unfold scaleOf
    rw [Prod.mk.injEq]
    constructor
    · push_cast
      exact div_self (Nat.cast_ne_zero.mpr (Nat.pos_iff_ne_zero.mp hh))
    · push_cast
      exact div_self (Nat.cast_ne_zero.mpr (Nat.pos_iff_ne_zero.mp hw))
  have hne : pyRepr src.metadata ≠ [] := by
    have h1 := pyRepr_length_pos src.metadata
    intro h0
    rw [h0] at h1
    simp at h1
  have hms : parse_meta_string ⟨Option.none, Option.none, some (natDec src.w),
      some (natDec src.h), some (pyRepr src.metadata),
      some ("data:image/jpeg;base64,".data ++ b64encode src.bytes)⟩ (writtenDoc src) =
      .ok (some (pyRepr src.metadata), []) := by
    unfold parse_meta_string
    simp [hne]
  unfold parse_metadata
  rw [show (writtenDoc src).images = [⟨Option.none, Option.none, some (natDec src.w),
      some (natDec src.h), some (pyRepr src.metadata),
      some ("data:image/jpeg;base64,".data ++ b64encode src.bytes)⟩] from rfl]
  simp only [hdims, hms, pyLitEval_pyRepr src.metadata hok, hdict, hmake, if_true, hscale]
  by_cases hmv : mv.isDictV = true
  · simp [hmv]
  · simp [hmv]

theorem annots_tol (l : List (Contour × Str)) :
    List.Forall₂ (fun (d : Annot) (a : Contour × Str) => d.color = a.2 ∧
        List.Forall₂ (fun (q p : ℤ × ℤ) => |q.1 - p.1| ≤ 1 ∧ |q.2 - p.2| ≤ 1)
          d.contour a.1)
      (l.map (fun a => Annot.mk a.1 a.2)) l := by
  induction l with
  | nil => exact List.Forall₂.nil
  | cons a rest ih =>
    refine List.Forall₂.cons ⟨rfl, ?_⟩ ih
    show List.Forall₂ _ a.1 a.1
    induction a.1 with
    | nil => exact List.Forall₂.nil
    | cons p t ih2 => exact List.Forall₂.cons ⟨by simp, by simp⟩ ih2

theorem dropLit_append : ∀ (p s : Str), dropLit p (p ++ s) = some s := by
  intro p
  induction p with
  | nil => intro s; rfl
  | cons c t ih =>
    intro s
    show (if c = c then dropLit t (t ++ s) else Option.none) = some s
    rw [if_pos rfl, ih]

theorem scanAttrValue_safe : ∀ (v : Str),
    (∀ c ∈ v, c ≠ dquote ∧ c ≠ '<' ∧ c ≠ '&') →
    ∀ rest, scanAttrValue (v ++ dquote :: rest) = .ok (v, rest) := by
  intro v
  induction v with
  | nil =>
    intro _ rest
    show scanAttrValue (dquote :: rest) = .ok ([], rest)
    conv_lhs => unfold scanAttrValue
    simp
  | cons c t ih =>
    intro h rest
    obtain ⟨h1, h2, h3⟩ := h c (by simp)
    show scanAttrValue (c :: (t ++ dquote :: rest)) = .ok (c :: t, rest)
    conv_lhs => unfold scanAttrValue
    rw [if_neg h1, if_neg h2, if_neg h3,
      ih (fun x hx => h x (by simp [hx])) rest]

theorem imageElem_shape (meta : Value) (w h : ℕ) (enc : Str) :
    imageElem (descStr meta) w h enc =
      "<image desc=".data ++ dquote :: (pyRepr meta ++ dquote ::
        (' ' :: ("width=".data ++ [dquote] ++ natDec w ++ [dquote] ++
          " height=".data ++ [dquote] ++ natDec h ++ [dquote] ++
          " x=".data ++ [dquote] ++ "0".data ++ [dquote] ++
          " y=".data ++ [dquote] ++ "0".data ++ [dquote] ++
          " xlink:href=".data ++ [dquote] ++ "data:image/jpeg;base64,".data ++
          enc ++ [dquote] ++ "/>".data))) := by
  unfold imageElem descStr
  simp only [List.append_assoc, List.cons_append, List.nil_append,
    List.singleton_append]

theorem parseDescFromTag_writer (meta : Value) (w h : ℕ) (enc : Str)
    (hxml : ∀ c ∈ pyRepr meta, c ≠ dquote ∧ c ≠ '<' ∧ c ≠ '&') :
    parseDescFromTag (imageElem (descStr meta) w h enc) = .ok (pyRepr meta) := by
  rw [imageElem_shape meta w h enc]
  unfold parseDescFromTag
  rw [dropLit_append]
  simp only [scanAttrValue_safe (pyRepr meta) hxml, reduceIte]

theorem to_svg_doc_writer (src : SrcImage)
    (hxml : ∀ c ∈ pyRepr src.metadata, c ≠ dquote ∧ c ≠ '<' ∧ c ≠ '&') :
    to_svg_doc src = .ok (writtenDoc src) := by
  unfold to_svg_doc
  rw [parseDescFromTag_writer src.metadata src.w src.h (b64encode src.bytes) hxml]
  rfl

/-- C1 counterexample source: well-formed bitmap and a perfectly
literal-representable metadata map — which happens not to contain the
key `'Make'`. -/
def c1Src : SrcImage :=
  ⟨2, 2, [1, 2, 3], Value.dcons "a".data (Value.int 1) Value.dnil, []⟩

/-- C1 second counterexample source: metadata that *does* contain
`'Make'`, whose value for `'a'` is a printable, literal-representable
string with an embedded double quote. -/
def c1XmlSrc : SrcImage :=
  ⟨2, 2, [1, 2, 3],
   Value.dcons "Make".data Value.dnil
     (Value.dcons "a".data (Value.str "x\"y".data) Value.dnil), []⟩

/-- C1 witness source: metadata `\x7b'Make': \x7b\x7d\x7d`, a 3-byte
payload, and one triangular annotation. -/
def c1WSrc : SrcImage :=
  ⟨2, 2, [1, 2, 3], Value.dcons "Make".data Value.dnil Value.dnil,
   [([(0, 0), (4, 0), (4, 4)], "red".data)]⟩

/-- A flat filesystem: association list from path to file content
(first match wins; writes shadow, removal deletes every entry). -/
abbrev FS := List (String × Str)

/-- Content at a path. -/
def fsGet : FS → String → Option Str
  | [], _ => Option.none
  | kv :: rest, q => if kv.1 = q then some kv.2 else fsGet rest q

/-- Create or overwrite a file. -/
def fsSet (fs : FS) (p : String) (v : Str) : FS := (p, v) :: fs

/-- `os.remove` (on an existing path): delete the file. -/
def fsRemove (fs : FS) (p : String) : FS :=
  fs.filter (fun kv => decide (kv.1 ≠ p))

/-- `os.path.exists`. -/
def fsHas (fs : FS) (p : String) : Bool := (fsGet fs p).isSome

theorem fsGet_fsSet_self (fs : FS) (p : String) (v : Str) :
    fsGet (fsSet fs p v) p = some v := by
  show (if p = p then some v else fsGet fs p) = some v
  rw [if_pos rfl]

theorem fsGet_fsSet_ne (fs : FS) (p q : String) (v : Str) (h : p ≠ q) :
    fsGet (fsSet fs p v) q = fsGet fs q := by
  show (if p = q then some v else fsGet fs q) = fsGet fs q
  rw [if_neg h]

theorem fsGet_fsRemove_self (p : String) : ∀ fs : FS,
    fsGet (fsRemove fs p) p = Option.none := by
  intro fs
  induction fs with
  | nil => rfl
  | cons kv rest ih =>
    show fsGet (List.filter _ (kv :: rest)) p = _
    rw [List.filter_cons]
    by_cases h : kv.1 = p
    · rw [if_neg (by simp [h])]
      exact ih
    · rw [if_pos (by simp [h])]
      show (if kv.1 = p then some kv.2 else fsGet (fsRemove rest p) p) = _
      rw [if_neg h]
      exact ih

theorem fsGet_fsRemove_ne (p q : String) (h : q ≠ p) : ∀ fs : FS,
    fsGet (fsRemove fs p) q = fsGet fs q := by
  intro fs
  induction fs with
  | nil => rfl
  | cons kv rest ih =>
    show fsGet (List.filter _ (kv :: rest)) q = _
    rw [List.filter_cons]
    by_cases hk : kv.1 = p
    · rw [if_neg (by simp [hk])]
      show fsGet (fsRemove rest p) q = fsGet (kv :: rest) q
      rw [ih]
      show fsGet rest q = (if kv.1 = q then some kv.2 else fsGet rest q)
      rw [if_neg (by rw [hk]; exact fun hpq => h hpq.symm)]
    · rw [if_pos (by simp [hk])]
      show (if kv.1 = q then some kv.2 else fsGet (fsRemove rest p) q) =
        (if kv.1 = q then some kv.2 else fsGet rest q)
      by_cases hq : kv.1 = q
      · rw [if_pos hq, if_pos hq]
      · rw [if_neg hq, if_neg hq, ih]

theorem fsHas_fsSet_self (fs : FS) (p : String) (v : Str) :
    fsHas (fsSet fs p v) p = true := by
  unfold fsHas
  rw [fsGet_fsSet_self]
  rfl

theorem fsHas_fsSet_ne (fs : FS) (p q : String) (v : Str) (h : p ≠ q) :
    fsHas (fsSet fs p v) q = fsHas fs q := by
  unfold fsHas
  rw [fsGet_fsSet_ne fs p q v h]

theorem fsHas_fsRemove_self (fs : FS) (p : String) :
    fsHas (fsRemove fs p) p = false := by
  unfold fsHas
  rw [fsGet_fsRemove_self]
  rfl

theorem fsHas_fsRemove_ne (fs : FS) (p q : String) (h : q ≠ p) :
    fsHas (fsRemove fs p) q = fsHas fs q := by
  unfold fsHas
  rw [fsGet_fsRemove_ne p q h]

/-- The annotation loop of `to_svg` (lines 323-324): append each
`a.svg_element()` to the written content; an element that raises stops
the loop with the content written so far. -/
def annotLoopC : Str → List (Except PyErr Str) → Str × Option PyErr
  | content, [] => (content, Option.none)
  | content, .error e :: _ => (content, some e)
  | content, .ok s :: rest => annotLoopC (content ++ s) rest

/-- Environment for one `to_svg` call: the outcome of each fallible
step.  `readRes` is `self.read().shape[0:2]` (height, width);
`metaRes` is the `self.metadata` property; `bufRes` is
`self._img_buffer()`; `annotElems` are the `a.svg_element()` results
in order; `moveOk` tells whether `shutil.move(tmp_svg, target)`
succeeds. -/
structure ToSvgEnv where
  readRes : Except PyErr (ℕ × ℕ)
  metaRes : Except PyErr Value
  bufRes : Except PyErr Str
  annotElems : List (Except PyErr Str)
  moveOk : Bool

/-- The try-block of `Image.to_svg` (lines 301-327, with the defaults
`embed_jpeg=True, include_metadata=True`): read the bitmap shape, the
metadata, the base64 buffer — all *before* `open(tmp_svg, 'w+')`
creates the temporary file — then write the header, the image element
and the annotation elements, and finally move the temporary file onto
the target.  Returns the filesystem as of the failure (or completion)
together with the outcome. -/
def to_svg_try (env : ToSvgEnv) (fs : FS) (tmpSvg target : String) :
    FS × Except PyErr Unit :=
  match env.readRes with
  | .error e => (fs, .error e)
  | .ok hw =>
    match env.metaRes with
    | .error e => (fs, .error e)
    | .ok meta =>
      match env.bufRes with
      | .error e => (fs, .error e)
      | .ok enc =>
        match annotLoopC (svgHeader hw.2 hw.1 ++ imageElem (descStr meta) hw.2 hw.1 enc)
            env.annotElems with
        | (content, some e) => (fsSet fs tmpSvg content, .error e)
        | (content, Option.none) =>
          if env.moveOk then
            (fsSet (fsRemove (fsSet fs tmpSvg (content ++ "</svg>".data)) tmpSvg)
              target (content ++ "</svg>".data), .ok ())
          else (fsSet fs tmpSvg (content ++ "</svg>".data),
            .error (.exc "move failed"))

/-- `Image.to_svg` (lines 296-332): the try block above, wrapped in
`except Exception as e: os.remove(tmp_svg); raise e`.  When the
failure occurred before the temporary file was created, `os.remove`
itself raises `FileNotFoundError(tmp_svg)`, which *replaces* the
original error. -/
def to_svg_fs (env : ToSvgEnv) (fs : FS) (tmpSvg target : String) :
    FS × Except PyErr Unit :=
  match to_svg_try env fs tmpSvg target with
  | (fs2, .ok u) => (fs2, .ok u)
  | (fs2, .error e) =>
    if fsHas fs2 tmpSvg then (fsRemove fs2 tmpSvg, .error e)
    else (fs2, .error (.fileNotFound tmpSvg))

/-- C5 counterexample environment: `self.read()` fails (e.g. an
unreadable or corrupt source file) before the temporary file exists. -/
def c5Env : ToSvgEnv :=
  ⟨.error (.exc "read failed"), .ok Value.dnil, .ok [], [], true⟩

/-- C5 (counterexample to the unqualified claim): when construction
fails *before* `open(tmp_svg, 'w+')` has created the temporary file —
here at `self.read()` — the cleanup's `os.remove(tmp_svg)` raises
`FileNotFoundError(tmp_svg)`, which replaces the original
construction error: the caller does not see the original error.  (The
target is indeed untouched and no temporary remains.) -/
theorem C5_counterexample :
    to_svg_fs c5Env [] "tmp.svg" "target.svg" =
      ([], .error (.fileNotFound "tmp.svg")) ∧
    to_svg_fs c5Env [] "tmp.svg" "target.svg" ≠
      ([], .error (.exc "read failed")) := by
  refine ⟨by decide, by decide⟩

/-- C5 (amended): for a fresh temporary path distinct from the target,
any failing `to_svg` run leaves the target unchanged and no temporary
file behind; the *original* error is re-raised exactly when the
failure happened at or after the creation of the temporary file (an
annotation element failing to serialise, or the final move failing),
while a failure before creation (reading the bitmap, the metadata, or
the base64 buffer) surfaces as `FileNotFoundError(tmp_svg)` from the
cleanup itself, replacing the original error. -/
theorem C5_atomic_on_failure (env : ToSvgEnv) (fs : FS) (tmpSvg target : String)
    (hfresh : fsHas fs tmpSvg = false) (hne : target ≠ tmpSvg) :
    (∀ fs2 e, to_svg_fs env fs tmpSvg target = (fs2, .error e) →
        fsGet fs2 target = fsGet fs target ∧ fsHas fs2 tmpSvg = false) ∧
    (∀ e, env.readRes = .error e →
        (to_svg_fs env fs tmpSvg target).2 = .error (.fileNotFound tmpSvg)) ∧
    (∀ hw meta enc content e, env.readRes = .ok hw → env.metaRes = .ok meta →
        env.bufRes = .ok enc →
        annotLoopC (svgHeader hw.2 hw.1 ++ imageElem (descStr meta) hw.2 hw.1 enc)
          env.annotElems = (content, some e) →
        (to_svg_fs env fs tmpSvg target).2 = .error e) := by
  obtain ⟨rr, mr, br, ae, mvOk⟩ := env
  refine ⟨?_, ?_, ?_⟩
  · intro fs2 e hres
    cases rr with
    | error e0 =>
      rw [show to_svg_fs ⟨.error e0, mr, br, ae, mvOk⟩ fs tmpSvg target =
          (fs, .error (.fileNotFound tmpSvg)) from by
        simp [to_svg_fs, to_svg_try, hfresh]] at hres
      injection hres with h1 h2
      subst h1
      exact ⟨rfl, hfresh⟩
    | ok hw =>
      cases mr with
      | error e0 =>
        rw [show to_svg_fs ⟨.ok hw, .error e0, br, ae, mvOk⟩ fs tmpSvg target =
            (fs, .error (.fileNotFound tmpSvg)) from by
          simp [to_svg_fs, to_svg_try, hfresh]] at hres
        injection hres with h1 h2
        subst h1
        exact ⟨rfl, hfresh⟩
      | ok meta =>
        cases br with
        | error e0 =>
          rw [show to_svg_fs ⟨.ok hw, .ok meta, .error e0, ae, mvOk⟩ fs tmpSvg target =
              (fs, .error (.fileNotFound tmpSvg)) from by
            simp [to_svg_fs, to_svg_try, hfresh]] at hres
          injection hres with h1 h2
          subst h1
          exact ⟨rfl, hfresh⟩
        | ok enc =>
          cases hal : annotLoopC (svgHeader hw.2 hw.1 ++
              imageElem (descStr meta) hw.2 hw.1 enc) ae with
          | mk content oe =>
            cases oe with
            | some e1 =>
              rw [show to_svg_fs ⟨.ok hw, .ok meta, .ok enc, ae, mvOk⟩ fs tmpSvg target =
                  (fsRemove (fsSet fs tmpSvg content) tmpSvg, .error e1) from by
                simp [to_svg_fs, to_svg_try, hal, fsHas_fsSet_self]] at hres
              injection hres with h1 h2
              subst h1
              refine ⟨?_, fsHas_fsRemove_self _ _⟩
              rw [fsGet_fsRemove_ne tmpSvg target hne,
                fsGet_fsSet_ne fs tmpSvg target _ (Ne.symm hne)]
            | none =>
              cases mvOk with
              | true =>
                rw [show to_svg_fs ⟨.ok hw, .ok meta, .ok enc, ae, true⟩ fs tmpSvg target =
                    (fsSet (fsRemove (fsSet fs tmpSvg (content ++ "</svg>".data)) tmpSvg)
                      target (content ++ "</svg>".data), .ok ()) from by
                  simp [to_svg_fs, to_svg_try, hal]] at hres
                injection hres with h1 h2
                exact Except.noConfusion h2
              | false =>
                rw [show to_svg_fs ⟨.ok hw, .ok meta, .ok enc, ae, false⟩ fs tmpSvg target =
                    (fsRemove (fsSet fs tmpSvg (content ++ "</svg>".data)) tmpSvg,
                      .error (.exc "move failed")) from by
                  simp [to_svg_fs, to_svg_try, hal, fsHas_fsSet_self]] at hres
                injection hres with h1 h2
                subst h1
                refine ⟨?_, fsHas_fsRemove_self _ _⟩
                rw [fsGet_fsRemove_ne tmpSvg target hne,
                  fsGet_fsSet_ne fs tmpSvg target _ (Ne.symm hne)]
  · intro e hrr
    cases hrr
    simp [to_svg_fs, to_svg_try, hfresh]
  · intro hw meta enc content e h1 h2 h3 h4
    cases h1
    cases h2
    cases h3
    simp [to_svg_fs, to_svg_try, h4, fsHas_fsSet_self]

/-- C5 witness environment: everything succeeds except the second
annotation's serialisation. -/
def c5WEnv : ToSvgEnv :=
  ⟨.ok (2, 2), .ok Value.dnil, .ok [],
   [.ok "<path/>".data, .error (.exc "bad annot")], true⟩

/-- Witness for C5 at a concrete failing run: the original
serialisation error is the one re-raised (the temporary file existed
by then). -/
theorem C5_atomic_on_failure_witness :
    (to_svg_fs c5WEnv [] "tmp.svg" "t.svg").2 = .error (.exc "bad annot") := by
  have h := C5_atomic_on_failure c5WEnv [] "tmp.svg" "t.svg" (by decide) (by decide)
  exact h.2.2 (2, 2) Value.dnil [] _ (.exc "bad annot") rfl rfl rfl rfl

/-- Environment for one `to_png` call: `toSvgRes` is the overlay
`self.to_svg(tmp_svg, embed_jpeg=False, include_metadata=False)` —
`.ok content` meaning it wrote `tmp_svg`; `svg2pngRes` is the
`svg2png` rasterisation (written to `tmp_png`); `compositeRes` covers
reading the raster back, resizing the bitmap, alpha-compositing and
saving (overwriting `tmp_png` with the composite); `moveOk` tells
whether `shutil.move(tmp_png, target)` succeeds. -/
structure ToPngEnv where
  toSvgRes : Except PyErr Str
  svg2pngRes : Except PyErr Str
  compositeRes : Except PyErr Str
  moveOk : Bool

/-- `Image.to_png` (lines 334-352): the body writes `tmp_svg`, then
rasterises it to `tmp_png`, composites over the resized bitmap, saves
to `tmp_png` and moves `tmp_png` onto the target; the only cleanup is
`finally: os.remove(tmp_svg)` — nothing ever removes `tmp_png` on a
failure after rasterisation.  (When the body failed before `tmp_svg`
existed, the `finally` clause's `os.remove` raises
`FileNotFoundError(tmp_svg)`, replacing the body's error.) -/
def to_png_fs (env : ToPngEnv) (fs : FS) (tmpPng tmpSvg target : String) :
    FS × Except PyErr Unit :=
  match (match env.toSvgRes with
         | .error e => (fs, Except.error e)
         | .ok svgContent =>
           match env.svg2pngRes with
           | .error e => (fsSet fs tmpSvg svgContent, Except.error e)
           | .ok png =>
             match env.compositeRes with
             | .error e => (fsSet (fsSet fs tmpSvg svgContent) tmpPng png,
                 Except.error e)
             | .ok comp =>
               if env.moveOk then
                 (fsSet (fsRemove (fsSet (fsSet (fsSet fs tmpSvg svgContent)
                     tmpPng png) tmpPng comp) tmpPng) target comp,
                   Except.ok ())
               else (fsSet (fsSet (fsSet fs tmpSvg svgContent) tmpPng png)
                   tmpPng comp, Except.error (PyErr.exc "move failed"))) with
  | (fs2, r) =>
    if fsHas fs2 tmpSvg then (fsRemove fs2 tmpSvg, r)
    else (fs2, .error (.fileNotFound tmpSvg))

/-- C7 counterexample environment: overlay and rasterisation succeed,
compositing fails. -/
def c7Env : ToPngEnv :=
  ⟨.ok "<svg/>".data, .ok "png".data, .error (.exc "composite failed"), true⟩

/-- C7 (counterexample to the claim): when compositing fails after the
rasterisation wrote `tmp_png`, the `finally` clause removes only
`tmp_svg`; the temporary rasterised image remains on disk while the
error propagates — the flattener does *not* remove all of its
temporary artifacts on every exit path. -/
theorem C7_counterexample :
    fsHas (to_png_fs c7Env [] "tmp.png" "tmp.svg" "t.png").1 "tmp.png" = true ∧
    (to_png_fs c7Env [] "tmp.png" "tmp.svg" "t.png").2 =
      .error (.exc "composite failed") := by
  refine ⟨by decide, by decide⟩

/-- C7 (amended): with fresh, distinct temporary paths, the flattener
always leaves `tmp_svg` absent (the `finally` clause guarantees the
overlay document's cleanup, though a pre-creation failure converts the
error into `FileNotFoundError(tmp_svg)`), and on success both
temporaries are gone and the target is written; but on a compositing
failure after rasterisation the original error propagates with the
temporary `tmp_png` still on disk — the guaranteed-release discipline
holds for the overlay document only, not for the rasterised image. -/
theorem C7_tmp_cleanup (env : ToPngEnv) (fs : FS) (tmpPng tmpSvg target : String)
    (hs : fsHas fs tmpSvg = false)
    (hps : tmpPng ≠ tmpSvg) (htp : target ≠ tmpPng) (hts : target ≠ tmpSvg) :
    fsHas (to_png_fs env fs tmpPng tmpSvg target).1 tmpSvg = false ∧
    (∀ fs2, to_png_fs env fs tmpPng tmpSvg target = (fs2, .ok ()) →
        fsHas fs2 tmpPng = false ∧ ∃ v, fsGet fs2 target = some v) ∧
    (∀ svgC png e, env.toSvgRes = .ok svgC → env.svg2pngRes = .ok png →
        env.compositeRes = .error e →
        (to_png_fs env fs tmpPng tmpSvg target).2 = .error e ∧
        fsHas (to_png_fs env fs tmpPng tmpSvg target).1 tmpPng = true) ∧
    (∀ e, env.toSvgRes = .error e →
        (to_png_fs env fs tmpPng tmpSvg target).2 =
          .error (.fileNotFound tmpSvg)) := by
  obtain ⟨tr, sr, cr, mvOk⟩ := env
  have hsp : tmpSvg ≠ tmpPng := Ne.symm hps
  refine ⟨?_, ?_, ?_, ?_⟩
  · cases tr with
    | error e0 => simp [to_png_fs, hs]
    | ok svgC =>
      cases sr with
      | error e0 => simp [to_png_fs, fsHas_fsSet_self, fsHas_fsRemove_self]
      | ok png =>
        cases cr with
        | error e0 =>
          simp [to_png_fs, fsHas_fsSet_ne, fsHas_fsSet_self,
            fsHas_fsRemove_self, hps]
        | ok comp =>
          cases mvOk with
          | true =>
            simp [to_png_fs, fsHas_fsSet_ne, fsHas_fsRemove_ne,
              fsHas_fsSet_self, fsHas_fsRemove_self, hps, hts, hsp]
          | false =>
            simp [to_png_fs, fsHas_fsSet_ne, fsHas_fsSet_self,
              fsHas_fsRemove_self, hps]
  · intro fs2 hres
    cases tr with
    | error e0 =>
      rw [show to_png_fs ⟨.error e0, sr, cr, mvOk⟩ fs tmpPng tmpSvg target =
          (fs, .error (.fileNotFound tmpSvg)) from by
        simp [to_png_fs, hs]] at hres
      injection hres with h1 h2
      exact Except.noConfusion h2
    | ok svgC =>
      cases sr with
      | error e0 =>
        rw [show to_png_fs ⟨.ok svgC, .error e0, cr, mvOk⟩ fs tmpPng tmpSvg target =
            (fsRemove (fsSet fs tmpSvg svgC) tmpSvg, .error e0) from by
          simp [to_png_fs, fsHas_fsSet_self]] at hres
        injection hres with h1 h2
        exact Except.noConfusion h2
      | ok png =>
        cases cr with
        | error e0 =>
          rw [show to_png_fs ⟨.ok svgC, .ok png, .error e0, mvOk⟩ fs tmpPng tmpSvg target =
              (fsRemove (fsSet (fsSet fs tmpSvg svgC) tmpPng png) tmpSvg,
                .error e0) from by
            simp [to_png_fs, fsHas_fsSet_ne, fsHas_fsSet_self, hps]] at hres
          injection hres with h1 h2
          exact Except.noConfusion h2
        | ok comp =>
          cases mvOk with
          | false =>
            rw [show to_png_fs ⟨.ok svgC, .ok png, .ok comp, false⟩ fs tmpPng tmpSvg target =
                (fsRemove (fsSet (fsSet (fsSet fs tmpSvg svgC) tmpPng png)
                  tmpPng comp) tmpSvg, .error (.exc "move failed")) from by
              simp [to_png_fs, fsHas_fsSet_ne, fsHas_fsSet_self, hps]] at hres
            injection hres with h1 h2
            exact Except.noConfusion h2
          | true =>
            rw [show to_png_fs ⟨.ok svgC, .ok png, .ok comp, true⟩ fs tmpPng tmpSvg target =
                (fsRemove (fsSet (fsRemove (fsSet (fsSet (fsSet fs tmpSvg svgC)
                    tmpPng png) tmpPng comp) tmpPng) target comp) tmpSvg,
                  .ok ()) from by
              simp [to_png_fs, fsHas_fsSet_ne, fsHas_fsRemove_ne,
                fsHas_fsSet_self, hps, hts, hsp]] at hres
            injection hres with h1 h2
            subst h1
            refine ⟨?_, ⟨comp, ?_⟩⟩
            · rw [fsHas_fsRemove_ne _ _ _ hps,
                fsHas_fsSet_ne _ _ _ _ htp, fsHas_fsRemove_self]
            · rw [fsGet_fsRemove_ne tmpSvg target hts, fsGet_fsSet_self]
  · intro svgC png e h1 h2 h3
    cases h1
    cases h2
    cases h3
    have hcomp : to_png_fs ⟨.ok svgC, .ok png, .error e, mvOk⟩ fs tmpPng tmpSvg target =
        (fsRemove (fsSet (fsSet fs tmpSvg svgC) tmpPng png) tmpSvg, .error e) := by
      simp [to_png_fs, fsHas_fsSet_ne, fsHas_fsSet_self, hps]
    rw [hcomp]
    refine ⟨rfl, ?_⟩
    rw [fsHas_fsRemove_ne _ _ _ hps, fsHas_fsSet_self]
  · intro e hrr
    cases hrr
    simp [to_png_fs, hs]

/-- C7 witness environment: a fully successful run. -/
def c7WEnv : ToPngEnv :=
  ⟨.ok "<svg/>".data, .ok "png".data, .ok "composite".data, true⟩

/-- Witness for C7 at a concrete successful run: the overlay temporary
is gone afterwards. -/
theorem C7_tmp_cleanup_witness :
    fsHas (to_png_fs c7WEnv [] "tmp.png" "tmp.svg" "t.png").1 "tmp.svg" = false := by
  have h := C7_tmp_cleanup c7WEnv [] "tmp.png" "tmp.svg" "t.png"
    (by decide) (by decide) (by decide) (by decide)
  exact h.1
